import Mathlib

/-!
Verification of the "Become the Consumer" game server
(`become-the-consumer/server.js`, the variant with the lock / grace-period /
fanout / purge design, which the specification treats as canonical).

The JavaScript game state is embedded as a Lean structure.  JavaScript
object references are modelled with an explicit heap: `queues` maps a queue
name to a heap reference and `heap` maps references to queue records, so
that a timer callback that captured a queue object (as the grace-period
`setTimeout` callback in `handleQueueLock` does) can still observe that
object after `initGame` cleared the name map.  Pending `setTimeout` grace
timers are modelled by the `graceTimers` association list (timer id ↦
captured queue reference); `clearTimeout` removes an id from it and firing
a timer consumes its id.  The nondeterminism of `Math.random()` and
`Date.now()` is modelled by explicit parameters (message kind, target
choice, current time), and the fresh message id `Date.now() + Math.random()`
by the `nextMsgId` counter.
-/

/-- Message kind: the JS `type` field, `'good'` or `'bad'`. -/
inductive MsgKind : Type where
  | good : MsgKind
  | bad : MsgKind
deriving DecidableEq, Repr

/-- A game message: `{ id, type }` in the source. -/
structure Message : Type where
  id : Nat
  kind : MsgKind
deriving DecidableEq, Repr

/-- One queue record: `{ messages, locked, lockedAt, lockTimeout }`. -/
structure QueueData : Type where
  messages : List Message
  locked : Bool
  lockedAt : Option Nat
  lockTimeout : Option Nat
deriving DecidableEq, Repr

/-- Result record returned by the command handlers
(`handleAck` / `handleReject` / `handlePurge`); absent JS fields are `none`. -/
structure CmdResult : Type where
  success : Bool
  correct : Option Bool := none
  messageType : Option MsgKind := none
  scoreChange : Option Int := none
  error : Option String := none
deriving DecidableEq, Repr

/-- `{ success: false, error }`. -/
def mkFail (e : String) : CmdResult := { success := false, error := some e }

/-- First-match lookup in an association list (JS `Map.get`). -/
def lookupKey {α β : Type} [DecidableEq α] : List (α × β) → α → Option β
  | [], _ => none
  | (a, b) :: t, k => if a = k then some b else lookupKey t k

/-- Replace the binding of `k` (JS `Map.set`): overwrite the first binding
of `k` if present, otherwise append a new binding at the end, preserving
insertion order. -/
def updateKey {α β : Type} [DecidableEq α] : List (α × β) → α → β → List (α × β)
  | [], k, v => [(k, v)]
  | (a, b) :: t, k, v => if a = k then (k, v) :: t else (a, b) :: updateKey t k v

/-- Remove every binding of `k`.  Models `clearTimeout` on the pending-timer
table: real timer ids are globally unique, so removing all bindings of an id
coincides with cancelling the one timer carrying it. -/
def removeKey {α β : Type} [DecidableEq α] (l : List (α × β)) (k : α) : List (α × β) :=
  l.filter (fun p => p.1 ≠ k)

/-- The whole server game state (`gameState` plus the timer bookkeeping).
`queues` is insertion-ordered, mapping a queue name to its heap reference. -/
structure GameState : Type where
  score : Int
  spawnRate : Nat
  queues : List (String × Nat)
  heap : List (Nat × QueueData)
  nextRef : Nat
  totalMessages : Nat
  fanoutMode : Bool
  gameOver : Bool
  queueCounter : Nat
  graceTimers : List (Nat × Nat)
  nextTimer : Nat
  nextMsgId : Nat
deriving DecidableEq, Repr

/-- `ANIMAL_NAMES` pool. -/
def ANIMAL_NAMES : List String :=
  ["lemming", "lemur", "orca", "panda", "rhino",
   "tiger", "whale", "hippo", "bunny", "pika",
   "koala", "falcon", "otter", "fox", "lynx"]

/-- `getNextQueueName`: name built from the counter before increment, with
the incremented counter as suffix; returns the name and the new counter. -/
def getNextQueueName (counter : Nat) : String × Nat :=
  (ANIMAL_NAMES.getD (counter % ANIMAL_NAMES.length) "" ++ "-" ++ toString (counter + 1),
   counter + 1)

/-- `gameState.queues.get(name)` : resolve a name through the map and heap. -/
def getQueue (s : GameState) (name : String) : Option (Nat × QueueData) :=
  match lookupKey s.queues name with
  | none => none
  | some ref =>
    match lookupKey s.heap ref with
    | none => none
    | some qd => some (ref, qd)

/-- `createQueue(name)`: allocate a fresh queue object
`{ messages: [], locked: false, lockedAt: null, lockTimeout: null }`
and bind `name` to it. -/
def createQueue (s : GameState) (name : String) : GameState :=
  { s with
    queues := updateKey s.queues name s.nextRef
    heap := updateKey s.heap s.nextRef
      { messages := [], locked := false, lockedAt := none, lockTimeout := none }
    nextRef := s.nextRef + 1 }

/-- `handleQueueLock(name)`: if the queue exists and is not yet locked, set
`locked = true`, `lockedAt = now`, and schedule the 10-second grace timer
(`lockTimeout = setTimeout(...)`), whose pending handle captures the queue
object's reference. -/
def handleQueueLock (s : GameState) (name : String) (now : Nat) : GameState :=
  match getQueue s name with
  | none => s
  | some (ref, qd) =>
    if qd.locked then s
    else
      { s with
        heap := updateKey s.heap ref
          { qd with locked := true, lockedAt := some now, lockTimeout := some s.nextTimer }
        graceTimers := s.graceTimers ++ [(s.nextTimer, ref)]
        nextTimer := s.nextTimer + 1 }

/-- The grace-timer `setTimeout` callback of `handleQueueLock` firing for
timer `tid`: a no-op unless `tid` is still pending; otherwise it is
consumed, and if the captured queue object is still locked and the game is
not over, `gameOver` becomes `true`. -/
def graceTimerFire (s : GameState) (tid : Nat) : GameState :=
  match lookupKey s.graceTimers tid with
  | none => s
  | some ref =>
    let s1 := { s with graceTimers := removeKey s.graceTimers tid }
    match lookupKey s1.heap ref with
    | none => s1
    | some qd =>
      if qd.locked && !s1.gameOver then { s1 with gameOver := true } else s1

/-- `handlePurge(queueName)`. -/
def handlePurge (s : GameState) (queueName : String) : GameState × CmdResult :=
  if s.gameOver then
    (s, mkFail "Game over! Use /reset to play again.")
  else
    match getQueue s queueName with
    | none => (s, mkFail ("Queue \"" ++ queueName ++ "\" not found"))
    | some (ref, qd) =>
      if !qd.locked then
        (s, mkFail ("Queue \"" ++ queueName ++ "\" is not locked"))
      else
        ({ s with
            score := s.score + (-50)
            graceTimers :=
              match qd.lockTimeout with
              | some tid => removeKey s.graceTimers tid
              | none => s.graceTimers
            heap := updateKey s.heap ref
              { messages := [], locked := false, lockedAt := none, lockTimeout := none } },
         { success := true, scoreChange := some (-50) })

/-- `handleAck(queueName)`. -/
def handleAck (s : GameState) (queueName : String) : GameState × CmdResult :=
  if s.gameOver then
    (s, mkFail "Game over! Use /reset to play again.")
  else
    match getQueue s queueName with
    | none => (s, mkFail ("Queue \"" ++ queueName ++ "\" not found"))
    | some (ref, qd) =>
      if qd.locked then
        (s, mkFail ("Queue \"" ++ queueName ++ "\" is locked. Use /purge to unlock."))
      else
        match qd.messages with
        | [] => (s, mkFail ("Queue \"" ++ queueName ++ "\" is empty"))
        | m :: rest =>
          let correct : Bool := m.kind = MsgKind.good
          ({ s with
              heap := updateKey s.heap ref { qd with messages := rest }
              score := if correct then s.score + 10 else s.score - 5 },
           { success := true, correct := some correct, messageType := some m.kind,
             scoreChange := some (if correct then 10 else -5) })

/-- `handleReject(queueName)`: mirror of `handleAck` with `correct`
meaning the popped message was `bad`. -/
def handleReject (s : GameState) (queueName : String) : GameState × CmdResult :=
  if s.gameOver then
    (s, mkFail "Game over! Use /reset to play again.")
  else
    match getQueue s queueName with
    | none => (s, mkFail ("Queue \"" ++ queueName ++ "\" not found"))
    | some (ref, qd) =>
      if qd.locked then
        (s, mkFail ("Queue \"" ++ queueName ++ "\" is locked. Use /purge to unlock."))
      else
        match qd.messages with
        | [] => (s, mkFail ("Queue \"" ++ queueName ++ "\" is empty"))
        | m :: rest =>
          let correct : Bool := m.kind = MsgKind.bad
          ({ s with
              heap := updateKey s.heap ref { qd with messages := rest }
              score := if correct then s.score + 10 else s.score - 5 },
           { success := true, correct := some correct, messageType := some m.kind,
             scoreChange := some (if correct then 10 else -5) })

/-- The push body shared by both branches of `spawnMessage`:
`queueData.messages.push(msg); gameState.totalMessages++;
if (queueData.messages.length >= 10) await handleQueueLock(name);`. -/
def pushAndMaybeLock (s : GameState) (name : String) (ref : Nat) (qd : QueueData)
    (kind : MsgKind) (now : Nat) : GameState :=
  let msg : Message := { id := s.nextMsgId, kind := kind }
  let s1 :=
    { s with
      heap := updateKey s.heap ref { qd with messages := qd.messages ++ [msg] }
      totalMessages := s.totalMessages + 1
      nextMsgId := s.nextMsgId + 1 }
  if 10 ≤ (qd.messages ++ [msg]).length then handleQueueLock s1 name now else s1

/-- One iteration of the fanout loop body in `spawnMessage`: skip a missing
or locked queue, otherwise push a copy of the message (fresh id, same kind)
and lock the queue if its length reached 10. -/
def fanoutStep (kind : MsgKind) (now : Nat) (s : GameState) (name : String) : GameState :=
  match getQueue s name with
  | none => s
  | some (ref, qd) =>
    if qd.locked then s
    else pushAndMaybeLock s name ref qd kind now

/-- The candidate list of the normal spawn branch:
`Array.from(gameState.queues.keys()).filter(name => q && !q.locked)`. -/
def unlockedNamesOf (s : GameState) : List String :=
  (s.queues.map Prod.fst).filter (fun n =>
    match getQueue s n with
    | some (_, q) => !q.locked
    | none => false)

/-- `spawnMessage()`, one tick of the spawn interval.  `kind` resolves the
`Math.random() > 0.5` coin, `choice` resolves `Math.floor(Math.random() *
queueNames.length)` (taken modulo the number of candidates), `now` is the
clock used for `lockedAt`. -/
def spawnMessage (s : GameState) (kind : MsgKind) (choice : Nat) (now : Nat) : GameState :=
  if s.queues.length = 0 ∨ s.gameOver then s
  else if s.fanoutMode then
    List.foldl (fanoutStep kind now) s (s.queues.map Prod.fst)
  else if (unlockedNamesOf s).length = 0 then s
  else
    match getQueue s ((unlockedNamesOf s).getD (choice % (unlockedNamesOf s).length) "") with
    | none => s
    | some (ref, qd) =>
      pushAndMaybeLock s ((unlockedNamesOf s).getD (choice % (unlockedNamesOf s).length) "")
        ref qd kind now

/-- One tick of `startDifficultyLoop`: every 20 s, if `spawnRate > 500`,
decrease it by 200 floored at 500.  The callback has no `gameOver` guard. -/
def difficultyTick (s : GameState) : GameState :=
  if 500 < s.spawnRate then { s with spawnRate := max 500 (s.spawnRate - 200) } else s

/-- One tick of `startNewQueueLoop`'s self-rescheduling timeout: add a queue
when fewer than 10 exist.  The callback has no `gameOver` guard. -/
def newQueueTick (s : GameState) : GameState :=
  if s.queues.length < 10 then
    let nc := getNextQueueName s.queueCounter
    createQueue { s with queueCounter := nc.2 } nc.1
  else s

/-- `initGame()` (the `reset` command): clears the four scheduler interval
handles (ambient in this model), clears the queue name map
(`cleanupQueues`), resets the scalar fields and the name counter, and
creates 2 fresh queues.  Note that it does NOT touch `graceTimers`: the
source clears only `spawnInterval`, `difficultyInterval`,
`newQueueInterval` and `fanoutInterval`, never any queue's `lockTimeout`,
and the orphaned queue objects stay alive in the heap because the pending
grace-timer callbacks still reference them. -/
def initGame (s : GameState) : GameState :=
  let s1 :=
    { s with
      queues := []
      score := 0
      spawnRate := 3000
      totalMessages := 0
      fanoutMode := false
      gameOver := false
      queueCounter := 0 }
  let n1 := getNextQueueName s1.queueCounter
  let s2 := createQueue { s1 with queueCounter := n1.2 } n1.1
  let n2 := getNextQueueName s2.queueCounter
  createQueue { s2 with queueCounter := n2.2 } n2.1

/-- The `reset` websocket command: runs `initGame` and always replies
`{ type: 'command_result', command: 'reset', success: true }`. -/
def handleReset (s : GameState) : GameState × CmdResult :=
  (initGame s, { success := true })

/-- The `gameState` literal at module load, before `start()` runs. -/
def initialGameState : GameState :=
  { score := 0, spawnRate := 3000, queues := [], heap := [], nextRef := 0,
    totalMessages := 0, fanoutMode := false, gameOver := false, queueCounter := 0,
    graceTimers := [], nextTimer := 0, nextMsgId := 0 }

/-- The state after `start()` has run `initGame()` once. -/
def startState : GameState := initGame initialGameState

/-- The possible mutations of the game state: player commands, scheduler
ticks, the fanout-mode toggles of `startFanoutLoop`, and a pending grace
timer firing. -/
inductive Step : Type where
  | ack : String → Step
  | reject : String → Step
  | purge : String → Step
  | reset : Step
  | spawn : MsgKind → Nat → Nat → Step
  | difficulty : Step
  | newQueue : Step
  | fanoutOn : Step
  | fanoutOff : Step
  | graceFire : Nat → Step
deriving DecidableEq, Repr

/-- Apply one mutation. -/
def applyStep (s : GameState) : Step → GameState
  | Step.ack q => (handleAck s q).1
  | Step.reject q => (handleReject s q).1
  | Step.purge q => (handlePurge s q).1
  | Step.reset => (handleReset s).1
  | Step.spawn kind choice now => spawnMessage s kind choice now
  | Step.difficulty => difficultyTick s
  | Step.newQueue => newQueueTick s
  | Step.fanoutOn => { s with fanoutMode := true }
  | Step.fanoutOff => { s with fanoutMode := false }
  | Step.graceFire tid => graceTimerFire s tid

/-- Apply a list of mutations in order. -/
def applySteps (s : GameState) (es : List Step) : GameState :=
  es.foldl applyStep s

/-- States reachable from the freshly initialised server. -/
inductive Reachable : GameState → Prop where
  | init : Reachable startState
  | step {s : GameState} (e : Step) : Reachable s → Reachable (applyStep s e)

/-! ### Association-list lemmas -/

theorem updateKey_cons_self {α β : Type} [DecidableEq α] (a : α) (b v : β) (t : List (α × β)) :
    updateKey ((a, b) :: t) a v = (a, v) :: t := by
  simp [updateKey]

theorem updateKey_cons_ne {α β : Type} [DecidableEq α] {a k : α} (hak : a ≠ k)
    (b : β) (v : β) (t : List (α × β)) :
    updateKey ((a, b) :: t) k v = (a, b) :: updateKey t k v := by
  simp [updateKey, hak]

theorem lookupKey_updateKey {α β : Type} [DecidableEq α] (l : List (α × β)) (k k' : α) (v : β) :
    lookupKey (updateKey l k v) k' = if k = k' then some v else lookupKey l k' := by
  induction l with
  | nil =>
    by_cases h : k = k' <;> simp [lookupKey, updateKey, h]
  | cons p t ih =>
    obtain ⟨a, b⟩ := p
    by_cases hak : a = k
    · subst hak
      rw [updateKey_cons_self]
      by_cases h2 : a = k' <;> simp [lookupKey, h2]
    · rw [updateKey_cons_ne hak]
      by_cases h2 : a = k'
      · subst h2
        have hka : ¬ k = a := fun h => hak h.symm
        simp [lookupKey, hka]
      · simp [lookupKey, h2, ih]

theorem lookupKey_mem {α β : Type} [DecidableEq α] {l : List (α × β)} {k : α} {v : β}
    (h : lookupKey l k = some v) : (k, v) ∈ l := by
  induction l with
  | nil => simp [lookupKey] at h
  | cons p t ih =>
    obtain ⟨a, b⟩ := p
    by_cases hak : a = k
    · subst hak
      simp [lookupKey] at h
      subst h
      exact List.mem_cons_self _ _
    · simp only [lookupKey, if_neg hak] at h
      exact List.mem_cons_of_mem _ (ih h)

theorem mem_updateKey {α β : Type} [DecidableEq α] {l : List (α × β)} {k : α} {v : β}
    {p : α × β} (h : p ∈ updateKey l k v) : p = (k, v) ∨ p ∈ l := by
  induction l with
  | nil => simpa [updateKey] using h
  | cons q t ih =>
    obtain ⟨a, b⟩ := q
    by_cases hak : a = k
    · subst hak
      rw [updateKey_cons_self] at h
      rcases List.mem_cons.mp h with h' | h'
      · exact Or.inl h'
      · exact Or.inr (List.mem_cons_of_mem _ h')
    · rw [updateKey_cons_ne hak] at h
      rcases List.mem_cons.mp h with h' | h'
      · exact Or.inr (by simp [h'])
      · rcases ih h' with h'' | h''
        · exact Or.inl h''
        · exact Or.inr (List.mem_cons_of_mem _ h'')

theorem fst_updateKey {α β : Type} [DecidableEq α] (l : List (α × β)) (k : α) (v : β) :
    (updateKey l k v).map Prod.fst =
      if k ∈ l.map Prod.fst then l.map Prod.fst else l.map Prod.fst ++ [k] := by
  induction l with
  | nil => simp [updateKey]
  | cons p t ih =>
    obtain ⟨a, b⟩ := p
    by_cases hak : a = k
    · subst hak
      rw [updateKey_cons_self]
      simp
    · have hka : ¬ k = a := fun h => hak h.symm
      rw [updateKey_cons_ne hak]
      by_cases hmem : k ∈ t.map Prod.fst
      · simp [ih, hmem, hka]
      · simp [ih, hmem, hka]

theorem nodup_fst_updateKey {α β : Type} [DecidableEq α] {l : List (α × β)} (k : α) (v : β)
    (h : (l.map Prod.fst).Nodup) : ((updateKey l k v).map Prod.fst).Nodup := by
  rw [fst_updateKey]
  by_cases hmem : k ∈ l.map Prod.fst
  · simpa [hmem] using h
  · simpa [hmem] using List.Nodup.append h (List.nodup_singleton k) (by simpa using hmem)

theorem mem_snd_updateKey {α β : Type} [DecidableEq α] {l : List (α × β)} {k : α} {v : β}
    {x : β} (h : x ∈ (updateKey l k v).map Prod.snd) : x = v ∨ x ∈ l.map Prod.snd := by
  rcases List.mem_map.mp h with ⟨p, hp, hx⟩
  rcases mem_updateKey hp with h' | h'
  · left
    rw [← hx, h']
  · right
    exact List.mem_map.mpr ⟨p, h', hx⟩

theorem nodup_snd_updateKey {α β : Type} [DecidableEq α] {l : List (α × β)} {k : α} {v : β}
    (hv : ∀ p ∈ l, p.2 ≠ v) (h : (l.map Prod.snd).Nodup) :
    ((updateKey l k v).map Prod.snd).Nodup := by
  induction l with
  | nil => simp [updateKey]
  | cons p t ih =>
    obtain ⟨a, b⟩ := p
    by_cases hak : a = k
    · subst hak
      rw [updateKey_cons_self]
      simp only [List.map_cons, List.nodup_cons] at h ⊢
      refine ⟨fun hv' => ?_, h.2⟩
      rcases List.mem_map.mp hv' with ⟨q, hq, hx⟩
      exact hv q (List.mem_cons_of_mem _ hq) hx
    · rw [updateKey_cons_ne hak]
      simp only [List.map_cons, List.nodup_cons] at h ⊢
      refine ⟨fun hb => ?_, ih (fun q hq => hv q (List.mem_cons_of_mem _ hq)) h.2⟩
      rcases mem_snd_updateKey hb with h' | h'
      · exact hv (a, b) (List.mem_cons_self _ _) h'
      · exact h.1 h'

theorem removeKey_cons_self {α β : Type} [DecidableEq α] (a : α) (b : β) (t : List (α × β)) :
    removeKey ((a, b) :: t) a = removeKey t a := by
  simp [removeKey]

theorem removeKey_cons_ne {α β : Type} [DecidableEq α] {a k : α} (hak : a ≠ k)
    (b : β) (t : List (α × β)) :
    removeKey ((a, b) :: t) k = (a, b) :: removeKey t k := by
  simp [removeKey, hak]

theorem lookupKey_removeKey {α β : Type} [DecidableEq α] (l : List (α × β)) (k k' : α) :
    lookupKey (removeKey l k) k' = if k = k' then none else lookupKey l k' := by
  induction l with
  | nil =>
    by_cases h : k = k' <;> simp [removeKey, lookupKey, h]
  | cons p t ih =>
    obtain ⟨a, b⟩ := p
    by_cases hak : a = k
    · subst hak
      rw [removeKey_cons_self, ih]
      by_cases h2 : a = k'
      · simp [h2]
      · simp [h2, lookupKey]
    · rw [removeKey_cons_ne hak]
      by_cases h2 : a = k'
      · subst h2
        have hka : ¬ k = a := fun h => hak h.symm
        simp [lookupKey, hka]
      · simp [lookupKey, h2, ih]

theorem updateKey_updateKey {α β : Type} [DecidableEq α] (l : List (α × β)) (k : α) (v w : β) :
    updateKey (updateKey l k v) k w = updateKey l k w := by
  induction l with
  | nil => simp [updateKey]
  | cons p t ih =>
    obtain ⟨a, b⟩ := p
    by_cases hak : a = k
    · subst hak
      rw [updateKey_cons_self, updateKey_cons_self, updateKey_cons_self]
    · rw [updateKey_cons_ne hak, updateKey_cons_ne hak, updateKey_cons_ne hak, ih]

/-- Distinct names map to distinct references when the reference column has
no duplicates. -/
theorem lookupKey_inj_of_nodup_snd {α β : Type} [DecidableEq α] {l : List (α × β)}
    (hnd : (l.map Prod.snd).Nodup) {n₁ n₂ : α} {r : β}
    (h₁ : lookupKey l n₁ = some r) (h₂ : lookupKey l n₂ = some r) : n₁ = n₂ := by
  have hm₁ := lookupKey_mem h₁
  have hm₂ := lookupKey_mem h₂
  have heq : (n₁, r) = (n₂, r) := List.inj_on_of_nodup_map hnd hm₁ hm₂ rfl
  exact congrArg Prod.fst heq

theorem getQueue_eq_some_iff {s : GameState} {n : String} {ref : Nat} {qd : QueueData} :
    getQueue s n = some (ref, qd) ↔
      lookupKey s.queues n = some ref ∧ lookupKey s.heap ref = some qd := by
  constructor
  · intro h
    cases hq : lookupKey s.queues n with
    | none => simp [getQueue, hq] at h
    | some r =>
      cases hh : lookupKey s.heap r with
      | none => simp [getQueue, hq, hh] at h
      | some q =>
        simp only [getQueue, hq, hh, Option.some.injEq, Prod.mk.injEq] at h
        obtain ⟨h1, h2⟩ := h
        subst h1
        subst h2
        exact ⟨rfl, hh⟩
  · rintro ⟨h₁, h₂⟩
    simp [getQueue, h₁, h₂]

/-! ### Characterization of the command handlers -/

theorem handleQueueLock_id_of_none {s : GameState} {n : String} (now : Nat)
    (hq : getQueue s n = none) : handleQueueLock s n now = s := by
  simp [handleQueueLock, hq]

theorem handleQueueLock_id_of_locked {s : GameState} {n : String} {ref : Nat} {qd : QueueData}
    (now : Nat) (hq : getQueue s n = some (ref, qd)) (hl : qd.locked = true) :
    handleQueueLock s n now = s := by
  simp [handleQueueLock, hq, hl]

theorem handleQueueLock_spec {s : GameState} {n : String} {ref : Nat} {qd : QueueData}
    (now : Nat) (hq : getQueue s n = some (ref, qd)) (hl : qd.locked = false) :
    handleQueueLock s n now =
      { s with
        heap := updateKey s.heap ref
          { qd with locked := true, lockedAt := some now, lockTimeout := some s.nextTimer }
        graceTimers := s.graceTimers ++ [(s.nextTimer, ref)]
        nextTimer := s.nextTimer + 1 } := by
  simp [handleQueueLock, hq, hl]

theorem handleAck_char (s : GameState) (q : String) :
    (s.gameOver = true ∧ handleAck s q = (s, mkFail "Game over! Use /reset to play again.")) ∨
    (s.gameOver = false ∧ getQueue s q = none ∧
      handleAck s q = (s, mkFail ("Queue \"" ++ q ++ "\" not found"))) ∨
    (∃ ref qd, s.gameOver = false ∧ getQueue s q = some (ref, qd) ∧ qd.locked = true ∧
      handleAck s q = (s, mkFail ("Queue \"" ++ q ++ "\" is locked. Use /purge to unlock."))) ∨
    (∃ ref qd, s.gameOver = false ∧ getQueue s q = some (ref, qd) ∧ qd.locked = false ∧
      qd.messages = [] ∧ handleAck s q = (s, mkFail ("Queue \"" ++ q ++ "\" is empty"))) ∨
    (∃ ref qd m rest, s.gameOver = false ∧ getQueue s q = some (ref, qd) ∧ qd.locked = false ∧
      qd.messages = m :: rest ∧
      handleAck s q =
        ({ s with
            heap := updateKey s.heap ref { qd with messages := rest }
            score := if m.kind = MsgKind.good then s.score + 10 else s.score - 5 },
         { success := true, correct := some (decide (m.kind = MsgKind.good)),
           messageType := some m.kind,
           scoreChange := some (if m.kind = MsgKind.good then 10 else -5) })) := by
  by_cases hg : s.gameOver = true
  · exact Or.inl ⟨hg, by simp [handleAck, hg]⟩
  · have hg' : s.gameOver = false := by simpa using hg
    cases hq : getQueue s q with
    | none =>
      exact Or.inr (Or.inl ⟨hg', rfl, by simp [handleAck, hg', hq]⟩)
    | some rq =>
      obtain ⟨ref, qd⟩ := rq
      by_cases hl : qd.locked = true
      · exact Or.inr (Or.inr (Or.inl ⟨ref, qd, hg', rfl, hl, by simp [handleAck, hg', hq, hl]⟩))
      · have hl' : qd.locked = false := by simpa using hl
        cases hm : qd.messages with
        | nil =>
          exact Or.inr (Or.inr (Or.inr (Or.inl
            ⟨ref, qd, hg', rfl, hl', hm, by simp [handleAck, hg', hq, hl', hm]⟩)))
        | cons m rest =>
          refine Or.inr (Or.inr (Or.inr (Or.inr
            ⟨ref, qd, m, rest, hg', rfl, hl', hm, ?_⟩)))
          by_cases hk : m.kind = MsgKind.good
          · simp [handleAck, hg', hq, hl', hm, hk]
          · simp [handleAck, hg', hq, hl', hm, hk]

theorem handleReject_char (s : GameState) (q : String) :
    (s.gameOver = true ∧ handleReject s q = (s, mkFail "Game over! Use /reset to play again.")) ∨
    (s.gameOver = false ∧ getQueue s q = none ∧
      handleReject s q = (s, mkFail ("Queue \"" ++ q ++ "\" not found"))) ∨
    (∃ ref qd, s.gameOver = false ∧ getQueue s q = some (ref, qd) ∧ qd.locked = true ∧
      handleReject s q = (s, mkFail ("Queue \"" ++ q ++ "\" is locked. Use /purge to unlock."))) ∨
    (∃ ref qd, s.gameOver = false ∧ getQueue s q = some (ref, qd) ∧ qd.locked = false ∧
      qd.messages = [] ∧ handleReject s q = (s, mkFail ("Queue \"" ++ q ++ "\" is empty"))) ∨
    (∃ ref qd m rest, s.gameOver = false ∧ getQueue s q = some (ref, qd) ∧ qd.locked = false ∧
      qd.messages = m :: rest ∧
      handleReject s q =
        ({ s with
            heap := updateKey s.heap ref { qd with messages := rest }
            score := if m.kind = MsgKind.bad then s.score + 10 else s.score - 5 },
         { success := true, correct := some (decide (m.kind = MsgKind.bad)),
           messageType := some m.kind,
           scoreChange := some (if m.kind = MsgKind.bad then 10 else -5) })) := by
  by_cases hg : s.gameOver = true
  · exact Or.inl ⟨hg, by simp [handleReject, hg]⟩
  · have hg' : s.gameOver = false := by simpa using hg
    cases hq : getQueue s q with
    | none =>
      exact Or.inr (Or.inl ⟨hg', rfl, by simp [handleReject, hg', hq]⟩)
    | some rq =>
      obtain ⟨ref, qd⟩ := rq
      by_cases hl : qd.locked = true
      · exact Or.inr (Or.inr (Or.inl ⟨ref, qd, hg', rfl, hl, by simp [handleReject, hg', hq, hl]⟩))
      · have hl' : qd.locked = false := by simpa using hl
        cases hm : qd.messages with
        | nil =>
          exact Or.inr (Or.inr (Or.inr (Or.inl
            ⟨ref, qd, hg', rfl, hl', hm, by simp [handleReject, hg', hq, hl', hm]⟩)))
        | cons m rest =>
          refine Or.inr (Or.inr (Or.inr (Or.inr
            ⟨ref, qd, m, rest, hg', rfl, hl', hm, ?_⟩)))
          by_cases hk : m.kind = MsgKind.bad
          · simp [handleReject, hg', hq, hl', hm, hk]
          · simp [handleReject, hg', hq, hl', hm, hk]

theorem handlePurge_char (s : GameState) (q : String) :
    (s.gameOver = true ∧ handlePurge s q = (s, mkFail "Game over! Use /reset to play again.")) ∨
    (s.gameOver = false ∧ getQueue s q = none ∧
      handlePurge s q = (s, mkFail ("Queue \"" ++ q ++ "\" not found"))) ∨
    (∃ ref qd, s.gameOver = false ∧ getQueue s q = some (ref, qd) ∧ qd.locked = false ∧
      handlePurge s q = (s, mkFail ("Queue \"" ++ q ++ "\" is not locked"))) ∨
    (∃ ref qd, s.gameOver = false ∧ getQueue s q = some (ref, qd) ∧ qd.locked = true ∧
      handlePurge s q =
        ({ s with
            score := s.score + (-50)
            graceTimers :=
              match qd.lockTimeout with
              | some tid => removeKey s.graceTimers tid
              | none => s.graceTimers
            heap := updateKey s.heap ref
              { messages := [], locked := false, lockedAt := none, lockTimeout := none } },
         { success := true, scoreChange := some (-50) })) := by
  by_cases hg : s.gameOver = true
  · exact Or.inl ⟨hg, by simp [handlePurge, hg]⟩
  · have hg' : s.gameOver = false := by simpa using hg
    cases hq : getQueue s q with
    | none =>
      exact Or.inr (Or.inl ⟨hg', rfl, by simp [handlePurge, hg', hq]⟩)
    | some rq =>
      obtain ⟨ref, qd⟩ := rq
      by_cases hl : qd.locked = true
      · exact Or.inr (Or.inr (Or.inr ⟨ref, qd, hg', rfl, hl, by simp [handlePurge, hg', hq, hl]⟩))
      · have hl' : qd.locked = false := by simpa using hl
        exact Or.inr (Or.inr (Or.inl ⟨ref, qd, hg', rfl, hl', by simp [handlePurge, hg', hq, hl']⟩))

theorem handleQueueLock_cases (s : GameState) (n : String) (now : Nat) :
    handleQueueLock s n now = s ∨
    ∃ ref qd, getQueue s n = some (ref, qd) ∧ qd.locked = false ∧
      handleQueueLock s n now =
        { s with
          heap := updateKey s.heap ref
            { qd with locked := true, lockedAt := some now, lockTimeout := some s.nextTimer }
          graceTimers := s.graceTimers ++ [(s.nextTimer, ref)]
          nextTimer := s.nextTimer + 1 } := by
  cases hq : getQueue s n with
  | none => exact Or.inl (handleQueueLock_id_of_none now hq)
  | some p =>
    obtain ⟨ref, qd⟩ := p
    by_cases hl : qd.locked = true
    · exact Or.inl (handleQueueLock_id_of_locked now hq hl)
    · have hl' : qd.locked = false := by simpa using hl
      exact Or.inr ⟨ref, qd, rfl, hl', handleQueueLock_spec now hq hl'⟩

theorem pushAndMaybeLock_spec {s : GameState} {name : String} {ref : Nat} {qd : QueueData}
    (k : MsgKind) (now : Nat)
    (hq1 : lookupKey s.queues name = some ref)
    (hl : qd.locked = false) :
    pushAndMaybeLock s name ref qd k now =
      if 10 ≤ qd.messages.length + 1 then
        { s with
          heap := updateKey s.heap ref
            { messages := qd.messages ++ [{ id := s.nextMsgId, kind := k }], locked := true,
              lockedAt := some now, lockTimeout := some s.nextTimer }
          totalMessages := s.totalMessages + 1
          nextMsgId := s.nextMsgId + 1
          graceTimers := s.graceTimers ++ [(s.nextTimer, ref)]
          nextTimer := s.nextTimer + 1 }
      else
        { s with
          heap := updateKey s.heap ref
            { qd with messages := qd.messages ++ [{ id := s.nextMsgId, kind := k }] }
          totalMessages := s.totalMessages + 1
          nextMsgId := s.nextMsgId + 1 } := by
  simp only [pushAndMaybeLock, List.length_append, List.length_cons, List.length_nil,
    Nat.zero_add]
  by_cases hlen : 10 ≤ qd.messages.length + 1
  · rw [if_pos hlen, if_pos hlen]
    have hget : getQueue
        { s with
          heap := updateKey s.heap ref
            { qd with messages := qd.messages ++ [{ id := s.nextMsgId, kind := k }] }
          totalMessages := s.totalMessages + 1
          nextMsgId := s.nextMsgId + 1 } name =
        some (ref, { qd with messages := qd.messages ++ [{ id := s.nextMsgId, kind := k }] }) := by
      apply getQueue_eq_some_iff.mpr
      constructor
      · simpa using hq1
      · simp [lookupKey_updateKey]
    rw [handleQueueLock_spec now hget (by simpa using hl)]
    simp [updateKey_updateKey]
  · rw [if_neg hlen, if_neg hlen]

theorem fanoutStep_cases (k : MsgKind) (now : Nat) (s : GameState) (n : String) :
    fanoutStep k now s n = s ∨
    ∃ ref qd, getQueue s n = some (ref, qd) ∧ qd.locked = false ∧
      fanoutStep k now s n = pushAndMaybeLock s n ref qd k now := by
  cases hq : getQueue s n with
  | none => exact Or.inl (by simp [fanoutStep, hq])
  | some p =>
    obtain ⟨ref, qd⟩ := p
    by_cases hl : qd.locked = true
    · exact Or.inl (by simp [fanoutStep, hq, hl])
    · have hl' : qd.locked = false := by simpa using hl
      exact Or.inr ⟨ref, qd, rfl, hl', by simp [fanoutStep, hq, hl']⟩

theorem fanoutStep_of_unlocked {s : GameState} {n : String} {ref : Nat} {qd : QueueData}
    (k : MsgKind) (now : Nat) (hq : getQueue s n = some (ref, qd)) (hl : qd.locked = false) :
    fanoutStep k now s n = pushAndMaybeLock s n ref qd k now := by
  simp [fanoutStep, hq, hl]

theorem fanoutStep_id_of_locked {s : GameState} {n : String} {ref : Nat} {qd : QueueData}
    (k : MsgKind) (now : Nat) (hq : getQueue s n = some (ref, qd)) (hl : qd.locked = true) :
    fanoutStep k now s n = s := by
  simp [fanoutStep, hq, hl]

theorem handleAck_fail_state {s : GameState} {q : String}
    (h : (handleAck s q).2.success = false) : (handleAck s q).1 = s := by
  rcases handleAck_char s q with ⟨_, he⟩ | ⟨_, _, he⟩ | ⟨_, _, _, _, _, he⟩ |
    ⟨_, _, _, _, _, _, he⟩ | ⟨_, _, _, _, _, _, _, _, he⟩
  · rw [he]
  · rw [he]
  · rw [he]
  · rw [he]
  · rw [he] at h
    simp at h

theorem handleReject_fail_state {s : GameState} {q : String}
    (h : (handleReject s q).2.success = false) : (handleReject s q).1 = s := by
  rcases handleReject_char s q with ⟨_, he⟩ | ⟨_, _, he⟩ | ⟨_, _, _, _, _, he⟩ |
    ⟨_, _, _, _, _, _, he⟩ | ⟨_, _, _, _, _, _, _, _, he⟩
  · rw [he]
  · rw [he]
  · rw [he]
  · rw [he]
  · rw [he] at h
    simp at h

theorem handlePurge_fail_state {s : GameState} {q : String}
    (h : (handlePurge s q).2.success = false) : (handlePurge s q).1 = s := by
  rcases handlePurge_char s q with ⟨_, he⟩ | ⟨_, _, he⟩ | ⟨_, _, _, _, _, he⟩ |
    ⟨_, _, _, _, _, he⟩
  · rw [he]
  · rw [he]
  · rw [he]
  · rw [he] at h
    simp at h

theorem handlePurge_success_iff {s : GameState} {q : String} :
    (handlePurge s q).2.success = true ↔
      s.gameOver = false ∧ ∃ ref qd, getQueue s q = some (ref, qd) ∧ qd.locked = true := by
  constructor
  · intro h
    rcases handlePurge_char s q with ⟨hg, he⟩ | ⟨hg, hq, he⟩ | ⟨ref, qd, hg, hq, hl, he⟩ |
      ⟨ref, qd, hg, hq, hl, he⟩
    · rw [he] at h
      simp [mkFail] at h
    · rw [he] at h
      simp [mkFail] at h
    · rw [he] at h
      simp [mkFail] at h
    · exact ⟨hg, ref, qd, hq, hl⟩
  · rintro ⟨hg, ref, qd, hq, hl⟩
    rcases handlePurge_char s q with ⟨hg2, he⟩ | ⟨_, hq2, he⟩ | ⟨r2, q2, _, hq2, hl2, he⟩ |
      ⟨r2, q2, _, hq2, hl2, he⟩
    · rw [hg] at hg2
      cases hg2
    · rw [hq] at hq2
      cases hq2
    · rw [hq] at hq2
      simp only [Option.some.injEq, Prod.mk.injEq] at hq2
      obtain ⟨h1, h2⟩ := hq2
      subst h2
      simp [hl] at hl2
    · rw [he]

/-! ### The inductive invariant -/

/-- The per-queue invariant of the spec: at most 10 messages, and a full
queue is locked. -/
def queueOk (qd : QueueData) : Prop :=
  qd.messages.length ≤ 10 ∧ (qd.messages.length = 10 → qd.locked = true)

/-- The inductive invariant of the game server. -/
structure GameInv (s : GameState) : Prop where
  heapOk : ∀ r qd, lookupKey s.heap r = some qd → queueOk qd
  fresh : ∀ p ∈ s.heap, p.1 < s.nextRef
  queuesWF : ∀ p ∈ s.queues, (lookupKey s.heap p.2).isSome
  namesND : (s.queues.map Prod.fst).Nodup
  refsND : (s.queues.map Prod.snd).Nodup
  rateLo : 500 ≤ s.spawnRate
  rateHi : s.spawnRate ≤ 3000

theorem ginv_of_fields {s t : GameState} (hs : GameInv s) (hheap : t.heap = s.heap)
    (hq : t.queues = s.queues) (href : t.nextRef = s.nextRef)
    (hrate : t.spawnRate = s.spawnRate) : GameInv t := by
  constructor
  · rw [hheap]
    exact hs.heapOk
  · rw [hheap, href]
    exact hs.fresh
  · intro p hp
    rw [hheap]
    exact hs.queuesWF p (hq ▸ hp)
  · rw [hq]
    exact hs.namesND
  · rw [hq]
    exact hs.refsND
  · rw [hrate]
    exact hs.rateLo
  · rw [hrate]
    exact hs.rateHi

/-- Updating the heap at a reference already present, with a `queueOk`
object, preserves the invariant (all other invariant-relevant fields
unchanged). -/
theorem ginv_update_heap {s t : GameState} {ref : Nat} {qdOld qdNew : QueueData}
    (hs : GameInv s) (hold : lookupKey s.heap ref = some qdOld) (hok : queueOk qdNew)
    (ht : t.heap = updateKey s.heap ref qdNew)
    (hq : t.queues = s.queues) (hr : t.nextRef = s.nextRef)
    (hrt : t.spawnRate = s.spawnRate) : GameInv t := by
  constructor
  · intro r qd h
    rw [ht, lookupKey_updateKey] at h
    by_cases hrr : ref = r
    · rw [if_pos hrr] at h
      cases h
      exact hok
    · rw [if_neg hrr] at h
      exact hs.heapOk r qd h
  · intro p hp
    rw [ht] at hp
    rw [hr]
    rcases mem_updateKey hp with h | h
    · rw [h]
      simpa using hs.fresh _ (lookupKey_mem hold)
    · exact hs.fresh p h
  · intro p hp
    rw [hq] at hp
    rw [ht, lookupKey_updateKey]
    by_cases hrr : ref = p.2
    · simp [hrr]
    · rw [if_neg hrr]
      exact hs.queuesWF p hp
  · rw [hq]
    exact hs.namesND
  · rw [hq]
    exact hs.refsND
  · rw [hrt]
    exact hs.rateLo
  · rw [hrt]
    exact hs.rateHi

theorem ginv_handleQueueLock {s : GameState} (hs : GameInv s) (n : String) (now : Nat) :
    GameInv (handleQueueLock s n now) := by
  rcases handleQueueLock_cases s n now with he | ⟨ref, qd, hq, hl, he⟩
  · rw [he]
    exact hs
  · rw [he]
    obtain ⟨hq1, hq2⟩ := getQueue_eq_some_iff.mp hq
    refine ginv_update_heap hs hq2 ?_ rfl rfl rfl rfl
    obtain ⟨h1, _⟩ := hs.heapOk ref qd hq2
    exact ⟨h1, fun _ => rfl⟩

theorem ginv_pushAndMaybeLock {s : GameState} {name : String} {ref : Nat} {qd : QueueData}
    (hs : GameInv s) (k : MsgKind) (now : Nat)
    (hq1 : lookupKey s.queues name = some ref) (hq2 : lookupKey s.heap ref = some qd)
    (hl : qd.locked = false) : GameInv (pushAndMaybeLock s name ref qd k now) := by
  have hok := hs.heapOk ref qd hq2
  have hlen : qd.messages.length ≤ 9 := by
    rcases Nat.lt_or_ge qd.messages.length 10 with h | h
    · omega
    · have h10 : qd.messages.length = 10 := le_antisymm hok.1 h
      rw [hok.2 h10] at hl
      cases hl
  rw [pushAndMaybeLock_spec k now hq1 hl]
  by_cases hc : 10 ≤ qd.messages.length + 1
  · rw [if_pos hc]
    refine ginv_update_heap hs hq2 ?_ rfl rfl rfl rfl
    constructor
    · simp
      omega
    · intro _
      rfl
  · rw [if_neg hc]
    refine ginv_update_heap hs hq2 ?_ rfl rfl rfl rfl
    constructor
    · simp
      omega
    · intro h10
      simp at h10
      omega

theorem ginv_fanoutStep {s : GameState} (hs : GameInv s) (k : MsgKind) (now : Nat) (n : String) :
    GameInv (fanoutStep k now s n) := by
  rcases fanoutStep_cases k now s n with he | ⟨ref, qd, hq, hl, he⟩
  · rw [he]
    exact hs
  · rw [he]
    obtain ⟨hq1, hq2⟩ := getQueue_eq_some_iff.mp hq
    exact ginv_pushAndMaybeLock hs k now hq1 hq2 hl

theorem foldl_pres {α : Type} (P : GameState → Prop) (f : GameState → α → GameState)
    (hf : ∀ t a, P t → P (f t a)) :
    ∀ (l : List α) (t : GameState), P t → P (List.foldl f t l) := by
  intro l
  induction l with
  | nil => exact fun t ht => ht
  | cons a l ih => exact fun t ht => ih (f t a) (hf t a ht)

theorem unlockedNamesOf_mem {s : GameState} {n : String} (h : n ∈ unlockedNamesOf s) :
    ∃ ref qd, getQueue s n = some (ref, qd) ∧ qd.locked = false := by
  unfold unlockedNamesOf at h
  rcases List.mem_filter.mp h with ⟨_, hpred⟩
  cases hq : getQueue s n with
  | none =>
    rw [hq] at hpred
    simp at hpred
  | some p =>
    obtain ⟨ref, qd⟩ := p
    rw [hq] at hpred
    simp at hpred
    exact ⟨ref, qd, rfl, by simpa using hpred⟩

theorem getD_mem_of_ne_nil {l : List String} (h : ¬ l.length = 0) (i : Nat) :
    l.getD (i % l.length) "" ∈ l := by
  have hlt : i % l.length < l.length := Nat.mod_lt _ (Nat.pos_of_ne_zero h)
  rw [List.getD_eq_getElem l "" hlt]
  exact List.getElem_mem hlt

theorem ginv_spawnMessage {s : GameState} (hs : GameInv s) (kind : MsgKind) (choice now : Nat) :
    GameInv (spawnMessage s kind choice now) := by
  unfold spawnMessage
  by_cases h0 : s.queues.length = 0 ∨ s.gameOver = true
  · rw [if_pos h0]
    exact hs
  · rw [if_neg h0]
    by_cases hf : s.fanoutMode = true
    · rw [if_pos hf]
      exact foldl_pres GameInv _ (fun t a ht => ginv_fanoutStep ht kind now a) _ s hs
    · rw [if_neg hf]
      by_cases hu : (unlockedNamesOf s).length = 0
      · rw [if_pos hu]
        exact hs
      · rw [if_neg hu]
        cases hq : getQueue s ((unlockedNamesOf s).getD (choice % (unlockedNamesOf s).length) "") with
        | none => exact hs
        | some p =>
          obtain ⟨ref, qd⟩ := p
          have hmem : (unlockedNamesOf s).getD (choice % (unlockedNamesOf s).length) "" ∈
              unlockedNamesOf s := getD_mem_of_ne_nil hu choice
          obtain ⟨ref', qd', hq', hl'⟩ := unlockedNamesOf_mem hmem
          rw [hq] at hq'
          simp only [Option.some.injEq, Prod.mk.injEq] at hq'
          obtain ⟨h1, h2⟩ := hq'
          subst h1
          subst h2
          obtain ⟨hq1, hq2⟩ := getQueue_eq_some_iff.mp hq
          exact ginv_pushAndMaybeLock hs kind now hq1 hq2 hl'

theorem ginv_handleAck {s : GameState} (hs : GameInv s) (q : String) :
    GameInv (handleAck s q).1 := by
  rcases handleAck_char s q with ⟨_, he⟩ | ⟨_, _, he⟩ | ⟨_, _, _, _, _, he⟩ |
    ⟨_, _, _, _, _, _, he⟩ | ⟨ref, qd, m, rest, _, hq, _, hm, he⟩
  · rw [he]
    exact hs
  · rw [he]
    exact hs
  · rw [he]
    exact hs
  · rw [he]
    exact hs
  · rw [he]
    obtain ⟨_, hq2⟩ := getQueue_eq_some_iff.mp hq
    refine ginv_update_heap hs hq2 ?_ rfl rfl rfl rfl
    obtain ⟨hok1, _⟩ := hs.heapOk ref qd hq2
    rw [hm] at hok1
    simp only [List.length_cons] at hok1
    constructor
    · simp
      omega
    · intro h10
      simp at h10
      omega

theorem ginv_handleReject {s : GameState} (hs : GameInv s) (q : String) :
    GameInv (handleReject s q).1 := by
  rcases handleReject_char s q with ⟨_, he⟩ | ⟨_, _, he⟩ | ⟨_, _, _, _, _, he⟩ |
    ⟨_, _, _, _, _, _, he⟩ | ⟨ref, qd, m, rest, _, hq, _, hm, he⟩
  · rw [he]
    exact hs
  · rw [he]
    exact hs
  · rw [he]
    exact hs
  · rw [he]
    exact hs
  · rw [he]
    obtain ⟨_, hq2⟩ := getQueue_eq_some_iff.mp hq
    refine ginv_update_heap hs hq2 ?_ rfl rfl rfl rfl
    obtain ⟨hok1, _⟩ := hs.heapOk ref qd hq2
    rw [hm] at hok1
    simp only [List.length_cons] at hok1
    constructor
    · simp
      omega
    · intro h10
      simp at h10
      omega

theorem ginv_handlePurge {s : GameState} (hs : GameInv s) (q : String) :
    GameInv (handlePurge s q).1 := by
  rcases handlePurge_char s q with ⟨_, he⟩ | ⟨_, _, he⟩ | ⟨_, _, _, _, _, he⟩ |
    ⟨ref, qd, _, hq, _, he⟩
  · rw [he]
    exact hs
  · rw [he]
    exact hs
  · rw [he]
    exact hs
  · rw [he]
    obtain ⟨_, hq2⟩ := getQueue_eq_some_iff.mp hq
    refine ginv_update_heap hs hq2 ?_ rfl rfl rfl rfl
    constructor
    · simp
    · intro h10
      simp at h10

theorem ginv_createQueue {s : GameState} (hs : GameInv s) (name : String) :
    GameInv (createQueue s name) := by
  constructor
  · intro r qd h
    simp only [createQueue] at h
    rw [lookupKey_updateKey] at h
    by_cases hrr : s.nextRef = r
    · rw [if_pos hrr] at h
      cases h
      constructor
      · simp
      · intro h10
        simp at h10
    · rw [if_neg hrr] at h
      exact hs.heapOk r qd h
  · intro p hp
    simp only [createQueue] at hp ⊢
    rcases mem_updateKey hp with h | h
    · rw [h]
      simp
    · have := hs.fresh p h
      omega
  · intro p hp
    simp only [createQueue] at hp ⊢
    rcases mem_updateKey hp with h | h
    · rw [h]
      simp [lookupKey_updateKey]
    · rw [lookupKey_updateKey]
      by_cases hrr : s.nextRef = p.2
      · simp [hrr]
      · rw [if_neg hrr]
        exact hs.queuesWF p h
  · simp only [createQueue]
    exact nodup_fst_updateKey name s.nextRef hs.namesND
  · simp only [createQueue]
    refine nodup_snd_updateKey ?_ hs.refsND
    intro p hp hcontra
    have hsome := hs.queuesWF p hp
    rw [hcontra] at hsome
    rcases Option.isSome_iff_exists.mp hsome with ⟨qd, hqd⟩
    have := hs.fresh _ (lookupKey_mem hqd)
    simp at this
  · exact hs.rateLo
  · exact hs.rateHi

theorem ginv_set_queueCounter {s : GameState} (hs : GameInv s) (c : Nat) :
    GameInv { s with queueCounter := c } :=
  ginv_of_fields hs rfl rfl rfl rfl

theorem ginv_initGame {s : GameState} (hs : GameInv s) : GameInv (initGame s) := by
  have h1 : GameInv
      { s with
        queues := []
        score := 0
        spawnRate := 3000
        totalMessages := 0
        fanoutMode := false
        gameOver := false
        queueCounter := 0 } := by
    constructor
    · exact fun r qd h => hs.heapOk r qd h
    · exact fun p hp => hs.fresh p hp
    · intro p hp
      simp at hp
    · simp
    · simp
    · show 500 ≤ 3000
      omega
    · show 3000 ≤ 3000
      omega
  unfold initGame
  exact ginv_createQueue (ginv_set_queueCounter (ginv_createQueue
    (ginv_set_queueCounter h1 _) _) _) _

theorem ginv_difficultyTick {s : GameState} (hs : GameInv s) : GameInv (difficultyTick s) := by
  unfold difficultyTick
  by_cases h : 500 < s.spawnRate
  · rw [if_pos h]
    constructor
    · exact hs.heapOk
    · exact hs.fresh
    · exact hs.queuesWF
    · exact hs.namesND
    · exact hs.refsND
    · show 500 ≤ max 500 (s.spawnRate - 200)
      exact le_max_left _ _
    · show max 500 (s.spawnRate - 200) ≤ 3000
      have := hs.rateHi
      omega
  · rw [if_neg h]
    exact hs

theorem ginv_newQueueTick {s : GameState} (hs : GameInv s) : GameInv (newQueueTick s) := by
  unfold newQueueTick
  by_cases h : s.queues.length < 10
  · rw [if_pos h]
    exact ginv_createQueue (ginv_set_queueCounter hs _) _
  · rw [if_neg h]
    exact hs

theorem ginv_graceTimerFire {s : GameState} (hs : GameInv s) (tid : Nat) :
    GameInv (graceTimerFire s tid) := by
  have hf : (graceTimerFire s tid).heap = s.heap ∧ (graceTimerFire s tid).queues = s.queues ∧
      (graceTimerFire s tid).nextRef = s.nextRef ∧
      (graceTimerFire s tid).spawnRate = s.spawnRate := by
    cases h : lookupKey s.graceTimers tid with
    | none => simp [graceTimerFire, h]
    | some ref =>
      cases h2 : lookupKey s.heap ref with
      | none => simp [graceTimerFire, h, h2]
      | some qd =>
        by_cases h3 : (qd.locked && !s.gameOver) = true
        · simp [graceTimerFire, h, h2, h3]
        · simp [graceTimerFire, h, h2, h3]
  exact ginv_of_fields hs hf.1 hf.2.1 hf.2.2.1 hf.2.2.2

theorem ginv_applyStep {s : GameState} (hs : GameInv s) (e : Step) :
    GameInv (applyStep s e) := by
  cases e with
  | ack q => exact ginv_handleAck hs q
  | reject q => exact ginv_handleReject hs q
  | purge q => exact ginv_handlePurge hs q
  | reset => exact ginv_initGame hs
  | spawn kind choice now => exact ginv_spawnMessage hs kind choice now
  | difficulty => exact ginv_difficultyTick hs
  | newQueue => exact ginv_newQueueTick hs
  | fanoutOn => exact ginv_of_fields hs rfl rfl rfl rfl
  | fanoutOff => exact ginv_of_fields hs rfl rfl rfl rfl
  | graceFire tid => exact ginv_graceTimerFire hs tid

theorem ginv_initialGameState : GameInv initialGameState := by
  constructor
  · intro r qd h
    simp [initialGameState, lookupKey] at h
  · intro p hp
    simp [initialGameState] at hp
  · intro p hp
    simp [initialGameState] at hp
  · simp [initialGameState]
  · simp [initialGameState]
  · show 500 ≤ 3000
    omega
  · show 3000 ≤ 3000
    omega

theorem ginv_reachable {s : GameState} (hs : Reachable s) : GameInv s := by
  induction hs with
  | init => exact ginv_initGame ginv_initialGameState
  | step e _ ih => exact ginv_applyStep ih e

/-! ### Success-branch equations -/

theorem handleAck_spec {s : GameState} {q : String} {ref : Nat} {qd : QueueData}
    {m : Message} {rest : List Message}
    (hg : s.gameOver = false) (hq : getQueue s q = some (ref, qd))
    (hl : qd.locked = false) (hm : qd.messages = m :: rest) :
    handleAck s q =
      ({ s with
          heap := updateKey s.heap ref { qd with messages := rest }
          score := if m.kind = MsgKind.good then s.score + 10 else s.score - 5 },
       { success := true, correct := some (decide (m.kind = MsgKind.good)),
         messageType := some m.kind,
         scoreChange := some (if m.kind = MsgKind.good then 10 else -5) }) := by
  by_cases hk : m.kind = MsgKind.good
  · simp [handleAck, hg, hq, hl, hm, hk]
  · simp [handleAck, hg, hq, hl, hm, hk]

theorem handleReject_spec {s : GameState} {q : String} {ref : Nat} {qd : QueueData}
    {m : Message} {rest : List Message}
    (hg : s.gameOver = false) (hq : getQueue s q = some (ref, qd))
    (hl : qd.locked = false) (hm : qd.messages = m :: rest) :
    handleReject s q =
      ({ s with
          heap := updateKey s.heap ref { qd with messages := rest }
          score := if m.kind = MsgKind.bad then s.score + 10 else s.score - 5 },
       { success := true, correct := some (decide (m.kind = MsgKind.bad)),
         messageType := some m.kind,
         scoreChange := some (if m.kind = MsgKind.bad then 10 else -5) }) := by
  by_cases hk : m.kind = MsgKind.bad
  · simp [handleReject, hg, hq, hl, hm, hk]
  · simp [handleReject, hg, hq, hl, hm, hk]

theorem handlePurge_spec {s : GameState} {q : String} {ref : Nat} {qd : QueueData}
    (hg : s.gameOver = false) (hq : getQueue s q = some (ref, qd))
    (hl : qd.locked = true) :
    handlePurge s q =
      ({ s with
          score := s.score + (-50)
          graceTimers :=
            match qd.lockTimeout with
            | some tid => removeKey s.graceTimers tid
            | none => s.graceTimers
          heap := updateKey s.heap ref
            { messages := [], locked := false, lockedAt := none, lockTimeout := none } },
       { success := true, scoreChange := some (-50) }) := by
  simp [handlePurge, hg, hq, hl]

/-! ### Concrete states used as witnesses -/

/-- A running state with one known queue holding a single good message. -/
def wGoodState : GameState :=
  { score := 0
    spawnRate := 3000
    queues := [("lemur-2", 0)]
    heap := [(0, { messages := [{ id := 7, kind := MsgKind.good }], locked := false,
                   lockedAt := none, lockTimeout := none })]
    nextRef := 1
    totalMessages := 1
    fanoutMode := false
    gameOver := false
    queueCounter := 2
    graceTimers := []
    nextTimer := 0
    nextMsgId := 8 }

/-- A running state with one known queue holding a single bad message. -/
def wBadState : GameState :=
  { wGoodState with
    heap := [(0, { messages := [{ id := 7, kind := MsgKind.bad }], locked := false,
                   lockedAt := none, lockTimeout := none })] }

/-- A full, locked queue record with a pending grace timer handle. -/
def wLockedQD : QueueData :=
  { messages := List.map (fun i => { id := i, kind := MsgKind.good }) (List.range 10)
    locked := true
    lockedAt := some 5
    lockTimeout := some 0 }

/-- A running state whose only queue is locked at 10 messages, with a
pending grace timer. -/
def wLockedState : GameState :=
  { score := 20
    spawnRate := 3000
    queues := [("orca-3", 0)]
    heap := [(0, wLockedQD)]
    nextRef := 1
    totalMessages := 10
    fanoutMode := false
    gameOver := false
    queueCounter := 3
    graceTimers := [(0, 0)]
    nextTimer := 1
    nextMsgId := 10 }

/-- A game-over state. -/
def wOverState : GameState :=
  { wLockedState with
    gameOver := true
    graceTimers := [] }

/-! ### The claims -/

/-- C2: for every known, unlocked, non-empty queue while the game is
running, `ack` pops the front message and returns success with
`scoreChange = +10` (score increased by 10) when the message is good and
`scoreChange = -5` (score decreased by 5) when it is bad; `reject` is the
exact mirror; both report the popped message's kind and whether the action
was correct. -/
theorem claim2_ack_reject_scoring {s : GameState} {q : String} {ref : Nat} {qd : QueueData}
    {m : Message} {rest : List Message}
    (hg : s.gameOver = false) (hq : getQueue s q = some (ref, qd))
    (hl : qd.locked = false) (hm : qd.messages = m :: rest) :
    (handleAck s q).2.success = true ∧ (handleReject s q).2.success = true ∧
    (handleAck s q).2.messageType = some m.kind ∧
    (handleReject s q).2.messageType = some m.kind ∧
    (handleAck s q).2.correct = some (decide (m.kind = MsgKind.good)) ∧
    (handleReject s q).2.correct = some (decide (m.kind = MsgKind.bad)) ∧
    lookupKey (handleAck s q).1.heap ref = some { qd with messages := rest } ∧
    lookupKey (handleReject s q).1.heap ref = some { qd with messages := rest } ∧
    (m.kind = MsgKind.good →
      (handleAck s q).2.scoreChange = some 10 ∧ (handleAck s q).1.score = s.score + 10 ∧
      (handleReject s q).2.scoreChange = some (-5) ∧
      (handleReject s q).1.score = s.score - 5) ∧
    (m.kind = MsgKind.bad →
      (handleAck s q).2.scoreChange = some (-5) ∧ (handleAck s q).1.score = s.score - 5 ∧
      (handleReject s q).2.scoreChange = some 10 ∧
      (handleReject s q).1.score = s.score + 10) := by
  rw [handleAck_spec hg hq hl hm, handleReject_spec hg hq hl hm]
  cases hk : m.kind with
  | good => simp [lookupKey_updateKey, hk]
  | bad => simp [lookupKey_updateKey, hk]

/-- C2 witness: a concrete run of the theorem on a one-queue state holding
one good message. -/
theorem claim2_witness :
    (handleAck wGoodState "lemur-2").2.scoreChange = some 10 ∧
    (handleAck wGoodState "lemur-2").1.score = 10 ∧
    (handleReject wGoodState "lemur-2").2.scoreChange = some (-5) ∧
    (handleReject wGoodState "lemur-2").1.score = -5 := by
  have h := @claim2_ack_reject_scoring wGoodState "lemur-2" 0
    { messages := [{ id := 7, kind := MsgKind.good }], locked := false,
      lockedAt := none, lockTimeout := none }
    { id := 7, kind := MsgKind.good } [] (by decide) (by decide) (by decide) (by decide)
  obtain ⟨-, -, -, -, -, -, -, -, hgood, -⟩ := h
  obtain ⟨h1, h2, h3, h4⟩ := hgood (by decide)
  exact ⟨h1, by rw [h2]; decide, h3, by rw [h4]; decide⟩

/-- C3: `purge` succeeds exactly when the game is running, the queue
exists, and the queue is locked; a successful purge yields
`scoreChange = -50` (score decreased by 50), empties the queue, unlocks it
(`locked = false`, `lockedAt = null`), and cancels its pending grace
timer. -/
theorem claim3_purge (s : GameState) (q : String) :
    ((handlePurge s q).2.success = true ↔
      s.gameOver = false ∧ ∃ ref qd, getQueue s q = some (ref, qd) ∧ qd.locked = true) ∧
    (∀ ref qd, s.gameOver = false → getQueue s q = some (ref, qd) → qd.locked = true →
      (handlePurge s q).2.scoreChange = some (-50) ∧
      (handlePurge s q).1.score = s.score - 50 ∧
      lookupKey (handlePurge s q).1.heap ref =
        some { messages := [], locked := false, lockedAt := none, lockTimeout := none } ∧
      (∀ tid, qd.lockTimeout = some tid →
        lookupKey (handlePurge s q).1.graceTimers tid = none)) := by
  constructor
  · exact handlePurge_success_iff
  · intro ref qd hg hq hl
    rw [handlePurge_spec hg hq hl]
    refine ⟨rfl, by simp; omega, by simp [lookupKey_updateKey], ?_⟩
    intro tid htid
    simp only [htid]
    rw [lookupKey_removeKey, if_pos rfl]

/-- C3 witness: purging the locked queue of a concrete state. -/
theorem claim3_witness :
    (handlePurge wLockedState "orca-3").2.success = true ∧
    (handlePurge wLockedState "orca-3").1.score = -30 ∧
    lookupKey (handlePurge wLockedState "orca-3").1.graceTimers 0 = none := by
  have h := claim3_purge wLockedState "orca-3"
  have h2 := h.2 0 wLockedQD (by decide) (by decide) (by decide)
  refine ⟨?_, by rw [h2.2.1]; decide, h2.2.2.2 0 (by decide)⟩
  exact (h.1).mpr ⟨by decide, 0, wLockedQD, by decide, by decide⟩

theorem graceTimerFire_gameOver_mono {s : GameState} (tid : Nat) (hg : s.gameOver = true) :
    (graceTimerFire s tid).gameOver = true := by
  cases h : lookupKey s.graceTimers tid with
  | none => simp [graceTimerFire, h, hg]
  | some ref =>
    cases h2 : lookupKey s.heap ref with
    | none => simp [graceTimerFire, h, h2, hg]
    | some qd => simp [graceTimerFire, h, h2, hg]

/-- C6: while `gameOver` is true, `ack`, `reject` and `purge` all return the
structured game-over failure without touching the state, every spawn tick
is a no-op, and `gameOver` stays true under every step other than
`reset`. -/
theorem claim6_gameOver_rejects_all {s : GameState} (hg : s.gameOver = true) :
    (∀ q, handleAck s q = (s, mkFail "Game over! Use /reset to play again.")) ∧
    (∀ q, handleReject s q = (s, mkFail "Game over! Use /reset to play again.")) ∧
    (∀ q, handlePurge s q = (s, mkFail "Game over! Use /reset to play again.")) ∧
    (∀ kind choice now, spawnMessage s kind choice now = s) ∧
    (∀ e, e ≠ Step.reset → (applyStep s e).gameOver = true) := by
  refine ⟨fun q => by simp [handleAck, hg],
          fun q => by simp [handleReject, hg],
          fun q => by simp [handlePurge, hg],
          fun kind choice now => by simp [spawnMessage, hg],
          ?_⟩
  intro e hne
  cases e with
  | ack q => simp [applyStep, handleAck, hg]
  | reject q => simp [applyStep, handleReject, hg]
  | purge q => simp [applyStep, handlePurge, hg]
  | reset => exact absurd rfl hne
  | spawn kind choice now => simp [applyStep, spawnMessage, hg]
  | difficulty =>
    show (difficultyTick s).gameOver = true
    unfold difficultyTick
    split
    · exact hg
    · exact hg
  | newQueue =>
    show (newQueueTick s).gameOver = true
    unfold newQueueTick
    split
    · exact hg
    · exact hg
  | fanoutOn => exact hg
  | fanoutOff => exact hg
  | graceFire tid => exact graceTimerFire_gameOver_mono tid hg

/-- C6 witness: the frozen behaviour on a concrete game-over state. -/
theorem claim6_witness :
    handleAck wOverState "orca-3" =
      (wOverState, mkFail "Game over! Use /reset to play again.") ∧
    handlePurge wOverState "orca-3" =
      (wOverState, mkFail "Game over! Use /reset to play again.") ∧
    spawnMessage wOverState MsgKind.good 0 0 = wOverState ∧
    (applyStep wOverState Step.difficulty).gameOver = true := by
  have h := claim6_gameOver_rejects_all (s := wOverState) (by decide)
  exact ⟨h.1 "orca-3", h.2.2.1 "orca-3", h.2.2.2.1 MsgKind.good 0 0,
    h.2.2.2.2 Step.difficulty (by decide)⟩

/-- C7: `reset` is always accepted (also during game over) and always
produces `spawnRate = 3000`, `score = 0`, `gameOver = false`,
`fanoutMode = false`, and exactly 2 queues. -/
theorem claim7_reset_spec (s : GameState) :
    (handleReset s).2.success = true ∧
    applyStep s Step.reset = initGame s ∧
    (initGame s).spawnRate = 3000 ∧
    (initGame s).score = 0 ∧
    (initGame s).gameOver = false ∧
    (initGame s).fanoutMode = false ∧
    (initGame s).queues.length = 2 := by
  exact ⟨rfl, rfl, rfl, rfl, rfl, rfl, rfl⟩

/-- C10: whenever `ack`, `reject` or `purge` returns `success = false`, the
whole game state — score, every queue's messages, locked flags and
timestamps — is unchanged. -/
theorem claim10_failure_no_mutation (s : GameState) (q : String) :
    ((handleAck s q).2.success = false → (handleAck s q).1 = s) ∧
    ((handleReject s q).2.success = false → (handleReject s q).1 = s) ∧
    ((handlePurge s q).2.success = false → (handlePurge s q).1 = s) :=
  ⟨handleAck_fail_state, handleReject_fail_state, handlePurge_fail_state⟩

/-- C10 witness: a failing ack on an unknown queue leaves a concrete state
untouched. -/
theorem claim10_witness :
    (handleAck wGoodState "nope").2.success = false ∧
    (handleAck wGoodState "nope").1 = wGoodState := by
  have h := claim10_failure_no_mutation wGoodState "nope"
  exact ⟨by decide, h.1 (by decide)⟩

/-- C8: in every reachable state the spawn interval lies in `[500, 3000]`;
it starts at 3000, a difficulty tick maps it to `max 500 (rate - 200)`
(a no-op at the floor of 500), and `initGame` restores 3000. -/
theorem claim8_spawnRate_bounds {s : GameState} (hs : Reachable s) :
    500 ≤ s.spawnRate ∧ s.spawnRate ≤ 3000 ∧
    (difficultyTick s).spawnRate = max 500 (s.spawnRate - 200) ∧
    (∀ t : GameState, (initGame t).spawnRate = 3000) ∧
    startState.spawnRate = 3000 := by
  have h := ginv_reachable hs
  refine ⟨h.rateLo, h.rateHi, ?_, fun t => rfl, rfl⟩
  unfold difficultyTick
  by_cases hc : 500 < s.spawnRate
  · rw [if_pos hc]
  · rw [if_neg hc]
    have h500 : s.spawnRate = 500 := le_antisymm (not_lt.mp hc) h.rateLo
    rw [h500]
    decide

/-- C8 witness: the bounds instantiated at the freshly started server. -/
theorem claim8_witness :
    500 ≤ startState.spawnRate ∧ startState.spawnRate ≤ 3000 ∧
    (difficultyTick startState).spawnRate = max 500 (startState.spawnRate - 200) := by
  have h := claim8_spawnRate_bounds Reachable.init
  exact ⟨h.1, h.2.1, h.2.2.1⟩

/-! ### Locked-flag persistence -/

theorem heap_difficultyTick (s : GameState) : (difficultyTick s).heap = s.heap := by
  unfold difficultyTick
  split
  · rfl
  · rfl

theorem graceTimerFire_heap (s : GameState) (tid : Nat) :
    (graceTimerFire s tid).heap = s.heap := by
  cases h : lookupKey s.graceTimers tid with
  | none => simp [graceTimerFire, h]
  | some ref =>
    cases h2 : lookupKey s.heap ref with
    | none => simp [graceTimerFire, h, h2]
    | some qd =>
      by_cases h3 : (qd.locked && !s.gameOver) = true
      · simp [graceTimerFire, h, h2, h3]
      · simp [graceTimerFire, h, h2, h3]

theorem heap_lookup_initGame {s : GameState} {r : Nat} (hr : r < s.nextRef) :
    lookupKey (initGame s).heap r = lookupKey s.heap r := by
  show lookupKey (updateKey (updateKey s.heap s.nextRef
    { messages := [], locked := false, lockedAt := none, lockTimeout := none })
    (s.nextRef + 1)
    { messages := [], locked := false, lockedAt := none, lockTimeout := none }) r =
    lookupKey s.heap r
  rw [lookupKey_updateKey, if_neg (show ¬ s.nextRef + 1 = r by omega),
    lookupKey_updateKey, if_neg (show ¬ s.nextRef = r by omega)]

theorem heap_lookup_newQueueTick {s : GameState} {r : Nat} (hr : r < s.nextRef) :
    lookupKey (newQueueTick s).heap r = lookupKey s.heap r := by
  unfold newQueueTick
  split
  · show lookupKey (updateKey s.heap s.nextRef
      { messages := [], locked := false, lockedAt := none, lockTimeout := none }) r =
      lookupKey s.heap r
    rw [lookupKey_updateKey, if_neg (show ¬ s.nextRef = r by omega)]
  · rfl

theorem lockedTrue_pres_push {t : GameState} {name : String} {ref : Nat} {qd : QueueData}
    (k : MsgKind) (now : Nat)
    (hq1 : lookupKey t.queues name = some ref) (hq2 : lookupKey t.heap ref = some qd)
    (hl : qd.locked = false) {r : Nat}
    (hP : ∀ x, lookupKey t.heap r = some x → x.locked = true) :
    ∀ x, lookupKey (pushAndMaybeLock t name ref qd k now).heap r = some x →
      x.locked = true := by
  intro x hx
  rw [pushAndMaybeLock_spec k now hq1 hl] at hx
  by_cases hc : 10 ≤ qd.messages.length + 1
  · rw [if_pos hc] at hx
    simp only [lookupKey_updateKey] at hx
    by_cases hrr : ref = r
    · rw [if_pos hrr] at hx
      cases hx
      rfl
    · rw [if_neg hrr] at hx
      exact hP x hx
  · rw [if_neg hc] at hx
    simp only [lookupKey_updateKey] at hx
    by_cases hrr : ref = r
    · subst hrr
      have hq := hP qd hq2
      rw [hq] at hl
      cases hl
    · rw [if_neg hrr] at hx
      exact hP x hx

theorem lockedTrue_pres_fanoutStep {t : GameState} (k : MsgKind) (now : Nat) (n : String)
    {r : Nat} (hP : ∀ x, lookupKey t.heap r = some x → x.locked = true) :
    ∀ x, lookupKey (fanoutStep k now t n).heap r = some x → x.locked = true := by
  rcases fanoutStep_cases k now t n with he | ⟨ref, qd, hq, hl, he⟩
  · rw [he]
    exact hP
  · rw [he]
    obtain ⟨hq1, hq2⟩ := getQueue_eq_some_iff.mp hq
    exact lockedTrue_pres_push k now hq1 hq2 hl hP

theorem lockedTrue_pres_spawn {s : GameState} (kind : MsgKind) (choice now : Nat) {r : Nat}
    (hP : ∀ x, lookupKey s.heap r = some x → x.locked = true) :
    ∀ x, lookupKey (spawnMessage s kind choice now).heap r = some x → x.locked = true := by
  unfold spawnMessage
  by_cases h0 : s.queues.length = 0 ∨ s.gameOver = true
  · rw [if_pos h0]
    exact hP
  · rw [if_neg h0]
    by_cases hf : s.fanoutMode = true
    · rw [if_pos hf]
      exact foldl_pres (fun t => ∀ x, lookupKey t.heap r = some x → x.locked = true) _
        (fun t a ht => lockedTrue_pres_fanoutStep kind now a ht) _ s hP
    · rw [if_neg hf]
      by_cases hu : (unlockedNamesOf s).length = 0
      · rw [if_pos hu]
        exact hP
      · rw [if_neg hu]
        cases hq : getQueue s
            ((unlockedNamesOf s).getD (choice % (unlockedNamesOf s).length) "") with
        | none => exact hP
        | some p =>
          obtain ⟨ref, qd⟩ := p
          have hmem := getD_mem_of_ne_nil hu choice
          obtain ⟨ref', qd', hq', hl'⟩ := unlockedNamesOf_mem hmem
          rw [hq] at hq'
          simp only [Option.some.injEq, Prod.mk.injEq] at hq'
          obtain ⟨e1, e2⟩ := hq'
          subst e1
          subst e2
          obtain ⟨hq1, hq2⟩ := getQueue_eq_some_iff.mp hq
          exact lockedTrue_pres_push kind now hq1 hq2 hl' hP

theorem lockedTrue_pres_ack {s : GameState} (q : String) {r : Nat}
    (hP : ∀ x, lookupKey s.heap r = some x → x.locked = true) :
    ∀ x, lookupKey (handleAck s q).1.heap r = some x → x.locked = true := by
  intro x hx
  rcases handleAck_char s q with ⟨_, he⟩ | ⟨_, _, he⟩ | ⟨_, _, _, _, _, he⟩ |
    ⟨_, _, _, _, _, _, he⟩ | ⟨ref, qdA, m, rest, _, hqA, _, hmA, he⟩
  · rw [he] at hx
    exact hP x hx
  · rw [he] at hx
    exact hP x hx
  · rw [he] at hx
    exact hP x hx
  · rw [he] at hx
    exact hP x hx
  · rw [he] at hx
    simp only [lookupKey_updateKey] at hx
    by_cases hrr : ref = r
    · rw [if_pos hrr] at hx
      subst hrr
      obtain ⟨_, hq2⟩ := getQueue_eq_some_iff.mp hqA
      have hqdA := hP qdA hq2
      cases hx
      exact hqdA
    · rw [if_neg hrr] at hx
      exact hP x hx

theorem lockedTrue_pres_reject {s : GameState} (q : String) {r : Nat}
    (hP : ∀ x, lookupKey s.heap r = some x → x.locked = true) :
    ∀ x, lookupKey (handleReject s q).1.heap r = some x → x.locked = true := by
  intro x hx
  rcases handleReject_char s q with ⟨_, he⟩ | ⟨_, _, he⟩ | ⟨_, _, _, _, _, he⟩ |
    ⟨_, _, _, _, _, _, he⟩ | ⟨ref, qdA, m, rest, _, hqA, _, hmA, he⟩
  · rw [he] at hx
    exact hP x hx
  · rw [he] at hx
    exact hP x hx
  · rw [he] at hx
    exact hP x hx
  · rw [he] at hx
    exact hP x hx
  · rw [he] at hx
    simp only [lookupKey_updateKey] at hx
    by_cases hrr : ref = r
    · rw [if_pos hrr] at hx
      subst hrr
      obtain ⟨_, hq2⟩ := getQueue_eq_some_iff.mp hqA
      have hqdA := hP qdA hq2
      cases hx
      exact hqdA
    · rw [if_neg hrr] at hx
      exact hP x hx

theorem purge_locked_pres {s : GameState} (q : String) {r : Nat}
    (hP : ∀ x, lookupKey s.heap r = some x → x.locked = true) :
    (∀ x, lookupKey (handlePurge s q).1.heap r = some x → x.locked = true) ∨
    (lookupKey s.queues q = some r ∧ (handlePurge s q).2.success = true) := by
  rcases handlePurge_char s q with ⟨_, he⟩ | ⟨_, _, he⟩ | ⟨_, _, _, _, _, he⟩ |
    ⟨ref, qdP, hg, hqP, hlP, he⟩
  · left
    intro x hx
    rw [he] at hx
    exact hP x hx
  · left
    intro x hx
    rw [he] at hx
    exact hP x hx
  · left
    intro x hx
    rw [he] at hx
    exact hP x hx
  · by_cases hrr : ref = r
    · right
      obtain ⟨hq1, _⟩ := getQueue_eq_some_iff.mp hqP
      subst hrr
      refine ⟨hq1, ?_⟩
      rw [he]
    · left
      intro x hx
      rw [he] at hx
      simp only [lookupKey_updateKey] at hx
      rw [if_neg hrr] at hx
      exact hP x hx

/-- C1: in every reachable state every queue object holds at most 10
messages and a queue at exactly 10 messages is locked; moreover a locked
queue object stays locked across every step except a successful `purge` of
that queue (a reset orphans the object but never unlocks it). -/
theorem claim1_bound_and_lock_persistence {s : GameState} (hs : Reachable s) :
    (∀ r qd, lookupKey s.heap r = some qd →
      qd.messages.length ≤ 10 ∧ (qd.messages.length = 10 → qd.locked = true)) ∧
    (∀ r qd, lookupKey s.heap r = some qd → qd.locked = true →
      ∀ e x, lookupKey (applyStep s e).heap r = some x →
        x.locked = true ∨
        ∃ n, e = Step.purge n ∧ lookupKey s.queues n = some r ∧
          (handlePurge s n).2.success = true) := by
  have hI := ginv_reachable hs
  constructor
  · exact fun r qd h => hI.heapOk r qd h
  · intro r qd hr hl e x hx
    have hP : ∀ y, lookupKey s.heap r = some y → y.locked = true := by
      intro y hy
      rw [hr] at hy
      cases hy
      exact hl
    have hfr : r < s.nextRef := hI.fresh _ (lookupKey_mem hr)
    cases e with
    | ack q => exact Or.inl (lockedTrue_pres_ack q hP x hx)
    | reject q => exact Or.inl (lockedTrue_pres_reject q hP x hx)
    | purge q =>
      rcases purge_locked_pres q hP with hok | ⟨hq, hsucc⟩
      · exact Or.inl (hok x hx)
      · exact Or.inr ⟨q, rfl, hq, hsucc⟩
    | reset =>
      left
      have hx2 : lookupKey (initGame s).heap r = some x := hx
      rw [heap_lookup_initGame hfr] at hx2
      exact hP x hx2
    | spawn kind choice now => exact Or.inl (lockedTrue_pres_spawn kind choice now hP x hx)
    | difficulty =>
      left
      have hx2 : lookupKey (difficultyTick s).heap r = some x := hx
      rw [heap_difficultyTick] at hx2
      exact hP x hx2
    | newQueue =>
      left
      have hx2 : lookupKey (newQueueTick s).heap r = some x := hx
      rw [heap_lookup_newQueueTick hfr] at hx2
      exact hP x hx2
    | fanoutOn => exact Or.inl (hP x hx)
    | fanoutOff => exact Or.inl (hP x hx)
    | graceFire tid =>
      left
      have hx2 : lookupKey (graceTimerFire s tid).heap r = some x := hx
      rw [graceTimerFire_heap] at hx2
      exact hP x hx2

/-- C1 witness: the bound instantiated at the freshly started server's
first queue. -/
theorem claim1_witness :
    lookupKey startState.heap 0 =
      some { messages := [], locked := false, lockedAt := none, lockTimeout := none } ∧
    ({ messages := [], locked := false, lockedAt := none,
       lockTimeout := none } : QueueData).messages.length ≤ 10 := by
  have h := claim1_bound_and_lock_persistence Reachable.init
  exact ⟨by decide, (h.1 0 _ (by decide)).1⟩

/-! ### Concrete traces: locking, reset, and the stale grace timer -/

theorem reachable_applySteps {s : GameState} (hs : Reachable s) (es : List Step) :
    Reachable (applySteps s es) := by
  induction es generalizing s with
  | nil => exact hs
  | cons e es ih => exact ih (Reachable.step e hs)

/-- Ten spawns aimed (choice 0) at the first queue: `lemming-1` reaches 10
messages and locks, scheduling grace timer 0. -/
def lockTrace : GameState :=
  applySteps startState (List.replicate 10 (Step.spawn MsgKind.good 0 5))

/-- `reset` issued right after the lock. -/
def afterReset : GameState := applyStep lockTrace Step.reset

/-- The grace timer of the locked queue fires with no reset: game over. -/
def overTrace : GameState := applyStep lockTrace (Step.graceFire 0)

theorem reachable_lockTrace : Reachable lockTrace :=
  reachable_applySteps Reachable.init _

theorem reachable_afterReset : Reachable afterReset :=
  Reachable.step Step.reset reachable_lockTrace

theorem reachable_overTrace : Reachable overTrace :=
  Reachable.step (Step.graceFire 0) reachable_lockTrace

/-- C4: the code violates the claim.  `initGame` clears only the four
scheduler handles, never a queue's `lockTimeout`, and the grace-timer
callback checks only the captured queue object's `locked` flag and the
current `gameOver` — there is no generation guard.  Concretely: after
`lemming-1` locks (grace timer 0 pending) and a `reset` is applied, the
timer is still pending in the fresh session (`gameOver = false`), and its
firing sets `gameOver = true` in the new session. -/
theorem claim4_stale_grace_timer_bug :
    Reachable afterReset ∧
    lookupKey afterReset.graceTimers 0 = some 0 ∧
    afterReset.gameOver = false ∧
    (applyStep afterReset (Step.graceFire 0)).gameOver = true := by
  refine ⟨reachable_afterReset, by decide, by decide, by decide⟩

/-- C5 counterexample: `overTrace` is a reachable state with
`gameOver = true`, yet a DifficultyScheduler tick still mutates
`spawnRate` from 3000 to 2800, so it is false that no operation other than
`reset` mutates any part of the state. -/
theorem claim5_counterexample :
    Reachable overTrace ∧ overTrace.gameOver = true ∧
    overTrace.spawnRate = 3000 ∧
    (applyStep overTrace Step.difficulty).spawnRate = 2800 := by
  exact ⟨reachable_overTrace, by decide, by decide, by decide⟩

theorem difficultyTick_frame (s : GameState) :
    (difficultyTick s).score = s.score ∧ (difficultyTick s).gameOver = s.gameOver ∧
    (difficultyTick s).heap = s.heap ∧ (difficultyTick s).queues = s.queues := by
  unfold difficultyTick
  split
  · exact ⟨rfl, rfl, rfl, rfl⟩
  · exact ⟨rfl, rfl, rfl, rfl⟩

theorem graceTimerFire_frame (s : GameState) (tid : Nat) :
    (graceTimerFire s tid).score = s.score ∧ (graceTimerFire s tid).queues = s.queues := by
  cases h : lookupKey s.graceTimers tid with
  | none => simp [graceTimerFire, h]
  | some ref =>
    cases h2 : lookupKey s.heap ref with
    | none => simp [graceTimerFire, h, h2]
    | some qd =>
      by_cases h3 : (qd.locked && !s.gameOver) = true
      · simp [graceTimerFire, h, h2, h3]
      · simp [graceTimerFire, h, h2, h3]

theorem newQueueTick_frame (s : GameState) :
    (newQueueTick s).score = s.score ∧ (newQueueTick s).gameOver = s.gameOver := by
  unfold newQueueTick
  split
  · exact ⟨rfl, rfl⟩
  · exact ⟨rfl, rfl⟩

theorem newQueueTick_queues_lookup (s : GameState) {n : String} {ref : Nat}
    (h : lookupKey s.queues n = some ref) :
    (lookupKey (newQueueTick s).queues n).isSome = true := by
  unfold newQueueTick
  split
  · show (lookupKey (updateKey s.queues (getNextQueueName s.queueCounter).1 s.nextRef)
      n).isSome = true
    rw [lookupKey_updateKey]
    by_cases hk : (getNextQueueName s.queueCounter).1 = n
    · rw [if_pos hk]
      rfl
    · rw [if_neg hk, h]
      rfl
  · rw [h]
    rfl

/-- C5 amended: once `gameOver` is true, no step other than `reset` changes
the score, `gameOver`, or any existing queue object (so no queue's message
sequence, locked flag, or lockedAt changes), and every existing queue name
stays bound; however a DifficultyScheduler tick may still lower
`spawnRate`, the FanoutModeScheduler toggles still flip `fanoutMode`, and a
QueueLifecycleScheduler tick may still add a new queue — the original
claim's inclusion of `spawnIntervalMs`, `fanoutActive`, and the queues
mapping fails on the code. -/
theorem claim5_amended_gameOver_freeze {s : GameState} (hs : Reachable s)
    (hg : s.gameOver = true) (e : Step) (hne : e ≠ Step.reset) :
    (applyStep s e).score = s.score ∧
    (applyStep s e).gameOver = true ∧
    (∀ r qd, lookupKey s.heap r = some qd → lookupKey (applyStep s e).heap r = some qd) ∧
    (∀ n ref, lookupKey s.queues n = some ref →
      (lookupKey (applyStep s e).queues n).isSome = true) := by
  have hI := ginv_reachable hs
  cases e with
  | ack q =>
    have hEq : applyStep s (Step.ack q) = s := by
      show (handleAck s q).1 = s
      simp [handleAck, hg]
    rw [hEq]
    exact ⟨rfl, hg, fun r qd h => h, fun n ref h => by rw [h]; rfl⟩
  | reject q =>
    have hEq : applyStep s (Step.reject q) = s := by
      show (handleReject s q).1 = s
      simp [handleReject, hg]
    rw [hEq]
    exact ⟨rfl, hg, fun r qd h => h, fun n ref h => by rw [h]; rfl⟩
  | purge q =>
    have hEq : applyStep s (Step.purge q) = s := by
      show (handlePurge s q).1 = s
      simp [handlePurge, hg]
    rw [hEq]
    exact ⟨rfl, hg, fun r qd h => h, fun n ref h => by rw [h]; rfl⟩
  | reset => exact absurd rfl hne
  | spawn kind choice now =>
    have hEq : applyStep s (Step.spawn kind choice now) = s := by
      show spawnMessage s kind choice now = s
      simp [spawnMessage, hg]
    rw [hEq]
    exact ⟨rfl, hg, fun r qd h => h, fun n ref h => by rw [h]; rfl⟩
  | difficulty =>
    simp only [applyStep]
    obtain ⟨h1, h2, h3, h4⟩ := difficultyTick_frame s
    refine ⟨h1, by rw [h2]; exact hg, fun r qd h => by rw [h3]; exact h,
      fun n ref h => by rw [h4, h]; rfl⟩
  | newQueue =>
    simp only [applyStep]
    obtain ⟨h1, h2⟩ := newQueueTick_frame s
    refine ⟨h1, by rw [h2]; exact hg, ?_, fun n ref h => newQueueTick_queues_lookup s h⟩
    intro r qd h
    have hfr : r < s.nextRef := hI.fresh _ (lookupKey_mem h)
    rw [heap_lookup_newQueueTick hfr]
    exact h
  | fanoutOn =>
    refine ⟨rfl, hg, fun r qd h => h, fun n ref h => ?_⟩
    show (lookupKey s.queues n).isSome = true
    rw [h]
    rfl
  | fanoutOff =>
    refine ⟨rfl, hg, fun r qd h => h, fun n ref h => ?_⟩
    show (lookupKey s.queues n).isSome = true
    rw [h]
    rfl
  | graceFire tid =>
    simp only [applyStep]
    obtain ⟨h1, h2⟩ := graceTimerFire_frame s tid
    refine ⟨h1, graceTimerFire_gameOver_mono tid hg, ?_,
      fun n ref h => by rw [h2, h]; rfl⟩
    intro r qd h
    rw [graceTimerFire_heap]
    exact h

/-- C5 amended witness: the frozen parts instantiated at the concrete
game-over state under a difficulty tick. -/
theorem claim5_amended_witness :
    (applyStep overTrace Step.difficulty).score = overTrace.score ∧
    (applyStep overTrace Step.difficulty).gameOver = true := by
  have h := claim5_amended_gameOver_freeze reachable_overTrace (by decide)
    Step.difficulty (by decide)
  exact ⟨h.1, h.2.1⟩

/-! ### The fanout fold -/

theorem handleQueueLock_queues (s : GameState) (n : String) (now : Nat) :
    (handleQueueLock s n now).queues = s.queues := by
  rcases handleQueueLock_cases s n now with he | ⟨ref, qd, _, _, he⟩
  · rw [he]
  · rw [he]

theorem pushAndMaybeLock_queues (t : GameState) (name : String) (ref : Nat) (qd : QueueData)
    (k : MsgKind) (now : Nat) :
    (pushAndMaybeLock t name ref qd k now).queues = t.queues := by
  simp only [pushAndMaybeLock]
  split
  · rw [handleQueueLock_queues]
  · rfl

theorem fanoutStep_queues (k : MsgKind) (now : Nat) (t : GameState) (n : String) :
    (fanoutStep k now t n).queues = t.queues := by
  rcases fanoutStep_cases k now t n with he | ⟨ref, qd, _, _, he⟩
  · rw [he]
  · rw [he, pushAndMaybeLock_queues]

theorem fanoutStep_heap_frame {t : GameState} (k : MsgKind) (now : Nat) (n : String) {r : Nat}
    (hfr : ∀ ref, lookupKey t.queues n = some ref → ref ≠ r) :
    lookupKey (fanoutStep k now t n).heap r = lookupKey t.heap r := by
  rcases fanoutStep_cases k now t n with he | ⟨ref, qd, hq, hl, he⟩
  · rw [he]
  · rw [he]
    obtain ⟨hq1, _⟩ := getQueue_eq_some_iff.mp hq
    have hne : ref ≠ r := hfr ref hq1
    rw [pushAndMaybeLock_spec k now hq1 hl]
    split
    · simp only [lookupKey_updateKey]
      rw [if_neg hne]
    · simp only [lookupKey_updateKey]
      rw [if_neg hne]

theorem fanout_fold_frame (k : MsgKind) (now : Nat) :
    ∀ (names : List String) (t : GameState) (r : Nat),
    (∀ n ∈ names, ∀ ref, lookupKey t.queues n = some ref → ref ≠ r) →
    lookupKey (List.foldl (fanoutStep k now) t names).heap r = lookupKey t.heap r := by
  intro names
  induction names with
  | nil =>
    intro t r _
    rfl
  | cons n names ih =>
    intro t r hfr
    show lookupKey (List.foldl (fanoutStep k now) (fanoutStep k now t n) names).heap r =
      lookupKey t.heap r
    rw [ih (fanoutStep k now t n) r (by
      intro m hm ref href
      rw [fanoutStep_queues] at href
      exact hfr m (List.mem_cons_of_mem n hm) ref href)]
    exact fanoutStep_heap_frame k now n (hfr n (List.mem_cons_self n names))

theorem fanout_fold_spec (k : MsgKind) (now : Nat) :
    ∀ (names : List String) (t : GameState),
    names.Nodup →
    (∀ n₁ r₁ n₂ r₂, lookupKey t.queues n₁ = some r₁ → lookupKey t.queues n₂ = some r₂ →
      r₁ = r₂ → n₁ = n₂) →
    ∀ n, n ∈ names → ∀ r qd, lookupKey t.queues n = some r → lookupKey t.heap r = some qd →
    ∃ qd', lookupKey (List.foldl (fanoutStep k now) t names).heap r = some qd' ∧
      (qd.locked = true → qd' = qd) ∧
      (qd.locked = false → ∃ m : Message, m.kind = k ∧
        qd'.messages = qd.messages ++ [m]) := by
  intro names
  induction names with
  | nil =>
    intro t _ _ n hn
    cases hn
  | cons n₀ names ih =>
    intro t hnd hinj n hn r qd hq hr
    rcases List.mem_cons.mp hn with hn0 | hmem
    · subst hn0
      have hframe : ∀ m ∈ names, ∀ ref,
          lookupKey (fanoutStep k now t n).queues m = some ref → ref ≠ r := by
        intro m hm ref href
        rw [fanoutStep_queues] at href
        intro hcontra
        subst hcontra
        have hmn : m = n := hinj m ref n ref href hq rfl
        subst hmn
        exact (List.nodup_cons.mp hnd).1 hm
      show ∃ qd', lookupKey
          (List.foldl (fanoutStep k now) (fanoutStep k now t n) names).heap r = some qd' ∧ _
      rw [fanout_fold_frame k now names (fanoutStep k now t n) r hframe]
      by_cases hl : qd.locked = true
      · rw [fanoutStep_id_of_locked k now (getQueue_eq_some_iff.mpr ⟨hq, hr⟩) hl]
        refine ⟨qd, hr, fun _ => rfl, fun hf => ?_⟩
        rw [hl] at hf
        cases hf
      · have hl' : qd.locked = false := by simpa using hl
        rw [fanoutStep_of_unlocked k now (getQueue_eq_some_iff.mpr ⟨hq, hr⟩) hl']
        rw [pushAndMaybeLock_spec k now hq hl']
        by_cases hc : 10 ≤ qd.messages.length + 1
        · rw [if_pos hc]
          refine ⟨{ messages := qd.messages ++ [{ id := t.nextMsgId, kind := k }],
                    locked := true, lockedAt := some now, lockTimeout := some t.nextTimer },
                  ?_, fun hcon => ?_, fun _ => ⟨{ id := t.nextMsgId, kind := k }, rfl, rfl⟩⟩
          · simp [lookupKey_updateKey]
          · rw [hcon] at hl'
            cases hl'
        · rw [if_neg hc]
          refine ⟨{ qd with messages := qd.messages ++ [{ id := t.nextMsgId, kind := k }] },
                  ?_, fun hcon => ?_, fun _ => ⟨{ id := t.nextMsgId, kind := k }, rfl, rfl⟩⟩
          · simp [lookupKey_updateKey]
          · rw [hcon] at hl'
            cases hl'
    · have hq' : lookupKey (fanoutStep k now t n₀).queues n = some r := by
        rw [fanoutStep_queues]
        exact hq
      have hr' : lookupKey (fanoutStep k now t n₀).heap r = some qd := by
        rw [fanoutStep_heap_frame k now n₀ (by
          intro ref href hcontra
          subst hcontra
          have h0n : n₀ = n := hinj n₀ ref n ref href hq rfl
          subst h0n
          exact (List.nodup_cons.mp hnd).1 hmem)]
        exact hr
      have hinj' : ∀ n₁ r₁ n₂ r₂, lookupKey (fanoutStep k now t n₀).queues n₁ = some r₁ →
          lookupKey (fanoutStep k now t n₀).queues n₂ = some r₂ → r₁ = r₂ → n₁ = n₂ := by
        intro n₁ r₁ n₂ r₂ h1 h2 h12
        rw [fanoutStep_queues] at h1 h2
        exact hinj n₁ r₁ n₂ r₂ h1 h2 h12
      exact ih (fanoutStep k now t n₀) (List.nodup_cons.mp hnd).2 hinj' n hmem r qd hq' hr'

theorem fanout_fold_id (k : MsgKind) (now : Nat) :
    ∀ (names : List String) (t : GameState),
    (∀ n ∈ names, ∀ ref qd, lookupKey t.queues n = some ref →
      lookupKey t.heap ref = some qd → qd.locked = true) →
    List.foldl (fanoutStep k now) t names = t := by
  intro names
  induction names with
  | nil =>
    intro t _
    rfl
  | cons n names ih =>
    intro t h
    have hstep : fanoutStep k now t n = t := by
      rcases fanoutStep_cases k now t n with he | ⟨ref, qd, hq, hl, he⟩
      · exact he
      · obtain ⟨hq1, hq2⟩ := getQueue_eq_some_iff.mp hq
        rw [h n (List.mem_cons_self n names) ref qd hq1 hq2] at hl
        cases hl
    show List.foldl (fanoutStep k now) (fanoutStep k now t n) names = t
    rw [hstep]
    exact ih t (fun m hm => h m (List.mem_cons_of_mem n hm))

theorem unlockedNamesOf_eq_nil {s : GameState}
    (h : ∀ n ref qd, lookupKey s.queues n = some ref → lookupKey s.heap ref = some qd →
      qd.locked = true) : unlockedNamesOf s = [] := by
  unfold unlockedNamesOf
  rw [List.filter_eq_nil_iff]
  intro n hn
  cases hq : getQueue s n with
  | none => simp [hq]
  | some p =>
    obtain ⟨ref, qd⟩ := p
    obtain ⟨hq1, hq2⟩ := getQueue_eq_some_iff.mp hq
    have hl := h n ref qd hq1 hq2
    simp [hq, hl]

theorem spawnMessage_normal_eq {s : GameState} (kind : MsgKind) (choice now : Nat)
    {tr : Nat} {tqd : QueueData}
    (hlen : ¬ (s.queues.length = 0 ∨ s.gameOver = true))
    (hf : s.fanoutMode = false)
    (hu : ¬ (unlockedNamesOf s).length = 0)
    (hgqT : getQueue s ((unlockedNamesOf s).getD (choice % (unlockedNamesOf s).length) "") =
      some (tr, tqd)) :
    spawnMessage s kind choice now =
      pushAndMaybeLock s
        ((unlockedNamesOf s).getD (choice % (unlockedNamesOf s).length) "")
        tr tqd kind now := by
  unfold spawnMessage
  rw [if_neg hlen, if_neg (by simp [hf]), if_neg hu, hgqT]

/-- C9: on a spawn tick with the game running: in fanout mode every queue
that is unlocked receives exactly one appended message of the drawn kind
and every locked queue is untouched; if every queue is locked (or none
exists) the tick is a strict no-op; and in normal mode exactly one
unlocked queue receives one appended message while every other heap
reference is untouched. -/
theorem claim9_spawn_targets {s : GameState} (hs : Reachable s) (hg : s.gameOver = false)
    (kind : MsgKind) (choice now : Nat) :
    (s.fanoutMode = true →
      ∀ n r qd, lookupKey s.queues n = some r → lookupKey s.heap r = some qd →
        ∃ qd', lookupKey (spawnMessage s kind choice now).heap r = some qd' ∧
          (qd.locked = true → qd' = qd) ∧
          (qd.locked = false → ∃ m : Message, m.kind = kind ∧
            qd'.messages = qd.messages ++ [m])) ∧
    ((∀ n r qd, lookupKey s.queues n = some r → lookupKey s.heap r = some qd →
        qd.locked = true) → spawnMessage s kind choice now = s) ∧
    (s.fanoutMode = false →
      (∃ n r qd, lookupKey s.queues n = some r ∧ lookupKey s.heap r = some qd ∧
        qd.locked = false) →
      ∃ tn tr tqd, lookupKey s.queues tn = some tr ∧ lookupKey s.heap tr = some tqd ∧
        tqd.locked = false ∧
        (∃ qd' m, lookupKey (spawnMessage s kind choice now).heap tr = some qd' ∧
          m.kind = kind ∧ qd'.messages = tqd.messages ++ [m]) ∧
        (∀ r', r' ≠ tr →
          lookupKey (spawnMessage s kind choice now).heap r' = lookupKey s.heap r')) := by
  have hI := ginv_reachable hs
  have hinj : ∀ n₁ r₁ n₂ r₂, lookupKey s.queues n₁ = some r₁ →
      lookupKey s.queues n₂ = some r₂ → r₁ = r₂ → n₁ = n₂ := by
    intro n₁ r₁ n₂ r₂ h1 h2 h12
    subst h12
    exact lookupKey_inj_of_nodup_snd hI.refsND h1 h2
  refine ⟨?_, ?_, ?_⟩
  · intro hf n r qd hq hr
    have hlen : ¬ (s.queues.length = 0 ∨ s.gameOver = true) := by
      rintro (h0 | h0)
      · rw [List.length_eq_zero] at h0
        rw [h0] at hq
        simp [lookupKey] at hq
      · rw [hg] at h0
        cases h0
    unfold spawnMessage
    rw [if_neg hlen, if_pos hf]
    have hnmem : n ∈ s.queues.map Prod.fst :=
      List.mem_map.mpr ⟨(n, r), lookupKey_mem hq, rfl⟩
    exact fanout_fold_spec kind now (s.queues.map Prod.fst) s hI.namesND hinj n hnmem r qd hq hr
  · intro hall
    unfold spawnMessage
    by_cases h0 : s.queues.length = 0 ∨ s.gameOver = true
    · rw [if_pos h0]
    · rw [if_neg h0]
      by_cases hf : s.fanoutMode = true
      · rw [if_pos hf]
        apply fanout_fold_id
        intro n hn ref qd hq1 hq2
        exact hall n ref qd hq1 hq2
      · rw [if_neg hf, if_pos (show (unlockedNamesOf s).length = 0 by
          rw [unlockedNamesOf_eq_nil hall]
          rfl)]
  · intro hf hex
    obtain ⟨n, r, qd, hq, hr, hl⟩ := hex
    have hlen : ¬ (s.queues.length = 0 ∨ s.gameOver = true) := by
      rintro (h0 | h0)
      · rw [List.length_eq_zero] at h0
        rw [h0] at hq
        simp [lookupKey] at hq
      · rw [hg] at h0
        cases h0
    have hnmem : n ∈ unlockedNamesOf s := by
      unfold unlockedNamesOf
      apply List.mem_filter.mpr
      refine ⟨List.mem_map.mpr ⟨(n, r), lookupKey_mem hq, rfl⟩, ?_⟩
      have hgq : getQueue s n = some (r, qd) := getQueue_eq_some_iff.mpr ⟨hq, hr⟩
      simp [hgq, hl]
    have hu : ¬ (unlockedNamesOf s).length = 0 := by
      intro h0
      rw [List.length_eq_zero] at h0
      rw [h0] at hnmem
      cases hnmem
    have hmemT := getD_mem_of_ne_nil hu choice
    obtain ⟨tr, tqd, hgqT, hlT⟩ := unlockedNamesOf_mem hmemT
    obtain ⟨hq1T, hq2T⟩ := getQueue_eq_some_iff.mp hgqT
    have hEq := spawnMessage_normal_eq kind choice now hlen hf hu hgqT
    refine ⟨(unlockedNamesOf s).getD (choice % (unlockedNamesOf s).length) "", tr, tqd,
      hq1T, hq2T, hlT, ?_, ?_⟩
    · rw [hEq, pushAndMaybeLock_spec kind now hq1T hlT]
      by_cases hc : 10 ≤ tqd.messages.length + 1
      · rw [if_pos hc]
        refine ⟨{ messages := tqd.messages ++ [{ id := s.nextMsgId, kind := kind }],
                  locked := true, lockedAt := some now, lockTimeout := some s.nextTimer },
                { id := s.nextMsgId, kind := kind }, ?_, rfl, rfl⟩
        simp [lookupKey_updateKey]
      · rw [if_neg hc]
        refine ⟨{ tqd with
                  messages := tqd.messages ++ [{ id := s.nextMsgId, kind := kind }] },
                { id := s.nextMsgId, kind := kind }, ?_, rfl, rfl⟩
        simp [lookupKey_updateKey]
    · intro r' hner
      rw [hEq, pushAndMaybeLock_spec kind now hq1T hlT]
      by_cases hc : 10 ≤ tqd.messages.length + 1
      · rw [if_pos hc]
        simp only [lookupKey_updateKey]
        rw [if_neg (fun h => hner h.symm)]
      · rw [if_neg hc]
        simp only [lookupKey_updateKey]
        rw [if_neg (fun h => hner h.symm)]

/-- C9 witness: a normal-mode tick on the freshly started server hits
exactly one unlocked queue. -/
theorem claim9_witness :
    ∃ tn tr tqd, lookupKey startState.queues tn = some tr ∧
      lookupKey startState.heap tr = some tqd ∧ tqd.locked = false ∧
      (∃ qd' m, lookupKey (spawnMessage startState MsgKind.good 0 5).heap tr = some qd' ∧
        m.kind = MsgKind.good ∧ qd'.messages = tqd.messages ++ [m]) ∧
      (∀ r', r' ≠ tr → lookupKey (spawnMessage startState MsgKind.good 0 5).heap r' =
        lookupKey startState.heap r') := by
  have h := claim9_spawn_targets Reachable.init (by decide) MsgKind.good 0 5
  exact h.2.2 (by decide) ⟨"lemming-1", 0,
    { messages := [], locked := false, lockedAt := none, lockTimeout := none },
    by decide, by decide, by decide⟩
